import Mathlib

/-!
The RPC dispatch layer of `internal/rpc/baserpc/base.go`

A shallow embedding of `BaseRpc`: the connection pool registry
(`getOrCreateConn`) and the fan-out dispatcher (`SendRpc`).

* Go `error` values are represented by their message (`err.Error()`), a nil
  error by `none`.
* The external libraries (`pool.New`, `Pool.Get`, the caller supplied `Rpc`
  adapter) are oracles that may depend on the whole history of external calls;
  every external call is recorded in that history.
* `fmt.Sprintf` with string operands is concatenation; `fmt.Errorf` called with
  a format string alone is modelled after `doPrintf` of Go's `fmt`.
* Goroutines are threads of a small-step machine; an interleaving is a list of
  thread picks, and a thread that waits for a lock or for the channel does not
  move when it is picked. A read-locked lookup is one step; the section under
  the exclusive lock is several steps during which no other goroutine can
  look the map up. A send into the buffered channel `results` never waits,
  since the channel has room for one result per goroutine.
* There is no clock: the timeout is a number handed to `Stub_Func`.
-/

namespace Baserpc

/-! ## Formatting (`fmt`) -/

/-- The flag characters skipped after a percent sign by `fmt`. -/
def isFlag (c : Char) : Bool :=
  c == '#' || c == '0' || c == '+' || c == '-' || c == ' '

/-- `parsenum` of Go's `fmt`: consumes a run of decimal digits. Returns whether a
number was read and the unread text; when the number grows beyond `1e6` the
scan gives up and jumps to the end of the text. -/
def parsenum : Nat → Bool → List Char → Bool × List Char
  | _, isnum, [] => (isnum, [])
  | num, isnum, c :: cs =>
    if c.isDigit then
      if num > 1000000 then (false, [])
      else parsenum (num * 10 + (c.toNat - 48)) true cs
    else (isnum, c :: cs)

/-- `parseArgNumber` of Go's `fmt` on a text starting with an opening square
bracket: the number of characters to skip and whether `[n]` was well formed. -/
def parseArgNumber (f : List Char) : Nat × Bool :=
  if f.length < 3 then (1, false)
  else
    let inner := (f.drop 1).takeWhile (fun c => c != ']')
    if inner.length = (f.drop 1).length then (1, false)
    else
      let r := parsenum 0 false inner
      (inner.length + 2, r.1 && r.2.isEmpty)

/-- `argNumber` of Go's `fmt` when there are no operands: the unread text,
whether an index was found, and whether the argument number is still good. -/
def argNumber (s : List Char) (good : Bool) : List Char × Bool × Bool :=
  match s with
  | '[' :: _ =>
    let r := parseArgNumber s
    (s.drop r.1, r.2, false)
  | _ => (s, false, good)

/-- One verb of a format string processed without operands (the text is what
follows the percent sign): the characters written and the unread text. -/
def verbNoArgs (s : List Char) : List Char × List Char :=
  let s1 := s.dropWhile isFlag
  let a1 := argNumber s1 true
  -- width
  let w : List Char × List Char × Bool × Bool :=
    match a1.1 with
    | '*' :: rest => ("%!(BADWIDTH)".data, rest, false, a1.2.2)
    | t =>
      let r := parsenum 0 false t
      ([], r.2, a1.2.1, if a1.2.1 && r.1 then false else a1.2.2)
  -- precision
  let p : List Char × List Char × Bool × Bool :=
    match w.2.1 with
    | '.' :: rest =>
      let good := if w.2.2.1 then false else w.2.2.2
      let a2 := argNumber rest good
      match a2.1 with
      | '*' :: rest2 => (w.1 ++ "%!(BADPREC)".data, rest2, false, a2.2.2)
      | t => (w.1, (parsenum 0 false t).2, a2.2.1, a2.2.2)
    | _ => w
  let a3 : List Char × Bool × Bool :=
    if p.2.2.1 then (p.2.1, true, p.2.2.2) else argNumber p.2.1 p.2.2.2
  match a3.1 with
  | [] => (p.1 ++ "%!(NOVERB)".data, [])
  | verb :: rest =>
    if verb = '%' then (p.1 ++ ['%'], rest)
    else if !a3.2.2 then (p.1 ++ "%!".data ++ [verb] ++ "(BADINDEX)".data, rest)
    else (p.1 ++ "%!".data ++ [verb] ++ "(MISSING)".data, rest)

/-- `doPrintf` of Go's `fmt` with an empty operand list: plain text is copied,
every verb is reported as malformed or missing its operand. -/
def doPrintf : Nat → List Char → List Char
  | 0, _ => []
  | _ + 1, [] => []
  | fuel + 1, c :: cs =>
    if c = '%' then
      let r := verbNoArgs cs
      r.1 ++ doPrintf fuel r.2
    else c :: doPrintf fuel cs

/-- Message of `fmt.Errorf(format)` called with the format string alone. -/
def Errorf (format : String) : String :=
  ⟨doPrintf (format.length + 1) format.data⟩

/-! ## Data model -/

/-- Handle of a `pool.Pool`. -/
abbrev Pool := Nat

/-- Handle of a `*grpc.ClientConn`. -/
abbrev Conn := Nat

/-- Value returned by a stub (`interface{}`), by its rendering. -/
abbrev Payload := String

def DEFAULT_RPC_TIMEOUT_MS : Nat := 500

def DEFAULT_RPC_RETRY_TIMES : Nat := 3

/-- Nanoseconds in `time.Millisecond`. -/
def Millisecond : Nat := 1000000

/-- The struct `RpcContext`. -/
structure RpcContext where
  addrs : List String
  name : String

def NewRpcContext (addrs : List String) (funcName : String) : RpcContext :=
  { addrs := addrs, name := funcName }

/-- The struct `RpcResult`; `Err = none` is the nil error. -/
structure RpcResult where
  Addr : String
  Err : Option String
  Result : Option Payload
deriving DecidableEq, Repr

/-- External calls made by the code, in the order they happen. `tid` is the
calling goroutine and `addr` the address it works on. -/
inductive Event where
  | poolNew (tid : Nat) (addr : String) (res : Except String Pool)
  | poolGet (tid : Nat) (addr : String) (p : Pool) (res : Except String Conn)
  | newRpcClient (tid : Nat) (addr : String) (c : Conn)
  | stubFunc (tid : Nat) (addr : String) (timeout retry : Nat)
      (res : Option Payload) (err : Option String)

/-- The package `pool`: `pool.New(addr, pool.DefaultOptions)` and
`Pool.Get()` followed by `conn.Value()`. Both may depend on the history. -/
structure PoolLib where
  New : List Event → String → Except String Pool
  Get : List Event → Pool → Except String Conn

/-- The interface `Rpc`. `NewRpcClient` only has an effect through the history
(it is recorded as an event); `Stub_Func` receives the deadline of its context
and the retry budget and returns a value and an error. -/
structure Rpc where
  Stub_Func : List Event → Nat → Nat → Option Payload × Option String

/-- The struct `BaseRpc`. `lock` holds the goroutine that owns the exclusive
lock, if any (read locks are taken and released within one step). -/
structure BaseRpc where
  timeout : Nat
  retryTimes : Nat
  lock : Option Nat
  connPools : String → Option Pool

/-- The registry together with the history of external calls. -/
structure World where
  cli : BaseRpc
  log : List Event

/-- `init()`: the value it assigns to `GBaseClient`. -/
def init : BaseRpc :=
  { timeout := DEFAULT_RPC_TIMEOUT_MS * Millisecond
    retryTimes := DEFAULT_RPC_RETRY_TIMES % 2 ^ 32
    lock := none
    connPools := fun _ => none }

/-- The global `GBaseClient` after `init()`. -/
def GBaseClient : BaseRpc := init

/-- The map assignment `cli.connPools[addr] = p`. -/
def BaseRpc.store (cli : BaseRpc) (addr : String) (p : Pool) : BaseRpc :=
  { cli with connPools := fun a => if a = addr then some p else cli.connPools a }

/-- The error of a failed `Get` (lines 70, 81, 94). -/
def getFailed (addr e : String) : String :=
  "conn pool get conn failed, addr: " ++ addr ++ ", err: " ++ e

/-- The error of a failed `pool.New` (line 88). -/
def newFailed (addr e : String) : String :=
  "new conn pool failed, addr: " ++ addr ++ ", err: " ++ e

/-- `cpool.Get()` and its error wrapping (lines 68-72, 79-83, 92-96). -/
def borrow (lib : PoolLib) (tid : Nat) (addr : String) (p : Pool) (w : World) :
    Except String Conn × World :=
  let r := lib.Get w.log p
  let w' : World := { w with log := w.log ++ [Event.poolGet tid addr p r] }
  match r with
  | .error e => (.error (getFailed addr e), w')
  | .ok c => (.ok c, w')

/-- `getOrCreateConn` run without interference from other goroutines. -/
def getOrCreateConn (lib : PoolLib) (tid : Nat) (addr : String) (w : World) :
    Except String Conn × World :=
  match w.cli.connPools addr with
  | some cpool => borrow lib tid addr cpool w
  | none =>
    -- the re-check under the exclusive lock sees the same map
    match w.cli.connPools addr with
    | some cpool => borrow lib tid addr cpool w
    | none =>
      let r := lib.New w.log addr
      let w1 : World := { w with log := w.log ++ [Event.poolNew tid addr r] }
      match r with
      | .error e => (.error (newFailed addr e), w1)
      | .ok p => borrow lib tid addr p { w1 with cli := w1.cli.store addr p }

/-! ## `getOrCreateConn` as a small-step machine -/

/-- Program points of a goroutine inside `getOrCreateConn`. -/
inductive ConnPc where
  /-- Line 64, before the read-locked lookup. -/
  | start
  /-- Line 68, the lookup found `p`; no lock is held. -/
  | fastGet (p : Pool)
  /-- Line 75, about to take the exclusive lock. -/
  | waitLock
  /-- Line 77, the exclusive lock is held, before the re-check. -/
  | locked
  /-- Line 86, the re-check found nothing, about to call `pool.New`. -/
  | lockedNew
  /-- Line 79 or 92, about to call `Get` under the exclusive lock. -/
  | lockedGet (p : Pool)
  /-- The function has returned (the deferred `Unlock` has run). -/
  | ret (r : Except String Conn)

/-- The deferred `cli.lock.Unlock()`. -/
def World.unlock (w : World) : World :=
  { w with cli := { w.cli with lock := none } }

/-- One atomic step of goroutine `tid` inside `getOrCreateConn(addr)`. A
goroutine waiting for a lock does not move. -/
def connStep (lib : PoolLib) (tid : Nat) (addr : String) (pc : ConnPc) (w : World) :
    ConnPc × World :=
  match pc with
  | .start =>
    match w.cli.lock with
    | some _ => (.start, w)
    | none =>
      match w.cli.connPools addr with
      | some p => (.fastGet p, w)
      | none => (.waitLock, w)
  | .fastGet p =>
    let r := borrow lib tid addr p w
    (.ret r.1, r.2)
  | .waitLock =>
    match w.cli.lock with
    | some _ => (.waitLock, w)
    | none => (.locked, { w with cli := { w.cli with lock := some tid } })
  | .locked =>
    match w.cli.connPools addr with
    | some p => (.lockedGet p, w)
    | none => (.lockedNew, w)
  | .lockedNew =>
    let r := lib.New w.log addr
    let w1 : World := { w with log := w.log ++ [Event.poolNew tid addr r] }
    match r with
    | .error e => (.ret (.error (newFailed addr e)), w1.unlock)
    | .ok p => (.lockedGet p, { w1 with cli := w1.cli.store addr p })
  | .lockedGet p =>
    let r := borrow lib tid addr p w
    (.ret r.1, r.2.unlock)
  | .ret r => (.ret r, w)

/-- Concurrent callers of `getOrCreateConn`: caller `i` works on
`callers[i].1` and stands at `callers[i].2`. -/
structure RegConfig where
  world : World
  callers : List (String × ConnPc)

/-- Whether an event is a call into the package `pool`. -/
def Event.isPool : Event → Bool
  | .poolNew _ _ _ => true
  | .poolGet _ _ _ _ => true
  | _ => false

/-- What can happen around the registry: caller `i` takes a step, or some
goroutine calls the adapter, which only shows in the history. -/
inductive RegAction where
  | call (i : Nat)
  | adapter (e : Event)

/-- One action on the registry. -/
def regStep (lib : PoolLib) (cfg : RegConfig) : RegAction → RegConfig
  | .call i =>
    match cfg.callers[i]? with
    | none => cfg
    | some (a, pc) =>
      let r := connStep lib i a pc cfg.world
      { world := r.2, callers := cfg.callers.set i (a, r.1) }
  | .adapter e =>
    if e.isPool then cfg
    else { cfg with world := { cfg.world with log := cfg.world.log ++ [e] } }

/-- The callers run under the interleaving `sched`. -/
def regRun (lib : PoolLib) (sched : List RegAction) (cfg : RegConfig) : RegConfig :=
  sched.foldl (regStep lib) cfg

/-- All callers at the entry of `getOrCreateConn`. -/
def regStart (w : World) (addrs : List String) : RegConfig :=
  { world := w, callers := addrs.map (fun a => (a, ConnPc.start)) }

/-- `n` consecutive steps of one goroutine inside `getOrCreateConn`. -/
def connIter (lib : PoolLib) (tid : Nat) (addr : String) :
    Nat → ConnPc × World → ConnPc × World
  | 0, s => s
  | n + 1, s => connIter lib tid addr n (connStep lib tid addr s.1 s.2)

/-- Caller `i` runs alone through `getOrCreateConn` (at most five steps). -/
def solo (i : Nat) : List RegAction :=
  List.replicate 5 (RegAction.call i)

/-- The callers `0 .. n-1` run one after the other. -/
def soloSched : Nat → List RegAction
  | 0 => []
  | n + 1 => soloSched n ++ solo n

/-! ## `SendRpc` as a small-step machine -/

/-- Program points of the goroutine launched for one address (lines 110-130).
`acq` remembers what `getOrCreateConn` returned to this goroutine. -/
inductive GoPc where
  /-- Line 113, inside `getOrCreateConn`. -/
  | conn (pc : ConnPc)
  /-- Line 122, `NewRpcClient(c)` has run, about to call `Stub_Func`. -/
  | bound (c : Conn)
  /-- Lines 115 and 124, about to send `r` into `results`. -/
  | send (acq : Except String Conn) (r : RpcResult)
  /-- The goroutine has sent `r` and ended. -/
  | done (acq : Except String Conn) (r : RpcResult)

/-- Program points of the caller of `SendRpc` (lines 132-148). -/
inductive MainPc where
  /-- In the receive loop with the current `count` and `rpcErr`. -/
  | draining (count : Nat) (rpcErr : String)
  | returned (r : RpcResult)

/-- The threads of one `SendRpc` call. -/
inductive Tid where
  | main
  | go (i : Nat)

/-- State of one `SendRpc` call. `results` is the buffered channel, `arrived`
records every result ever sent into it, in order. -/
structure Config where
  world : World
  size : Nat
  gos : List (String × GoPc)
  results : List RpcResult
  arrived : List RpcResult
  main : MainPc

/-- `fmt.Sprintf("%s;%s:%s", rpcErr, addr, e)` (line 139). -/
def appendErr (rpcErr addr e : String) : String :=
  rpcErr ++ ";" ++ addr ++ ":" ++ e

/-- The value returned at lines 144-148. -/
def failure (rpcErr : String) : RpcResult :=
  { Addr := "", Err := some (Errorf rpcErr), Result := none }

/-- The body of the receive loop (lines 135-142) on the received `res`. -/
def receive (size count : Nat) (rpcErr : String) (res : RpcResult) : MainPc :=
  match res.Err with
  | none => .returned res
  | some e =>
    let count := count + 1
    let rpcErr := appendErr rpcErr res.Addr e
    if count ≥ size then .returned (failure rpcErr) else .draining count rpcErr

/-- One step of the goroutine `i` launched for `addr`. -/
def goStep (lib : PoolLib) (rpcFunc : Rpc) (i : Nat) (addr : String) (pc : GoPc)
    (cfg : Config) : GoPc × Config :=
  match pc with
  | .conn (.ret (.error e)) =>
    (.send (.error e) { Addr := addr, Err := some e, Result := none }, cfg)
  | .conn (.ret (.ok c)) =>
    (.bound c,
      { cfg with world :=
          { cfg.world with log := cfg.world.log ++ [Event.newRpcClient i addr c] } })
  | .conn pc =>
    let r := connStep lib i addr pc cfg.world
    (.conn r.1, { cfg with world := r.2 })
  | .bound c =>
    let r := rpcFunc.Stub_Func cfg.world.log cfg.world.cli.timeout cfg.world.cli.retryTimes
    (.send (.ok c) { Addr := addr, Err := r.2, Result := r.1 },
      { cfg with world :=
          { cfg.world with log := cfg.world.log ++
              [Event.stubFunc i addr cfg.world.cli.timeout cfg.world.cli.retryTimes r.1 r.2] } })
  | .send acq r =>
    (.done acq r, { cfg with results := cfg.results ++ [r], arrived := cfg.arrived ++ [r] })
  | .done acq r => (.done acq r, cfg)

/-- One step of thread `t`; a blocked or finished thread does not move. -/
def step (lib : PoolLib) (rpcFunc : Rpc) (cfg : Config) (t : Tid) : Config :=
  match t with
  | .main =>
    match cfg.main, cfg.results with
    | .draining count rpcErr, res :: rest =>
      { cfg with main := receive cfg.size count rpcErr res, results := rest }
    | _, _ => cfg
  | .go i =>
    match cfg.gos[i]? with
    | none => cfg
    | some (a, pc) =>
      let r := goStep lib rpcFunc i a pc cfg
      { r.2 with gos := r.2.gos.set i (a, r.1) }

def run (lib : PoolLib) (rpcFunc : Rpc) (sched : List Tid) (cfg : Config) : Config :=
  sched.foldl (step lib rpcFunc) cfg

/-- The program point of the caller when the goroutines have been launched. -/
def mainInit (size : Nat) : MainPc :=
  if size = 0 then
    .returned { Addr := "", Err := some (Errorf "empty addr"), Result := none }
  else .draining 0 ""

/-- Lines 100-131: the early return on an empty address list, otherwise the
channel is made and one goroutine per address is launched. -/
def launch (w : World) (ctx : RpcContext) : Config :=
  let size := ctx.addrs.length
  { world := w
    size := size
    gos := ctx.addrs.map (fun a => (a, GoPc.conn ConnPc.start))
    results := []
    arrived := []
    main := mainInit size }

/-- The receive loop (lines 134-143) run over the results received so far. -/
def drain (size : Nat) : MainPc → List RpcResult → MainPc
  | .returned r, _ => .returned r
  | .draining c e, [] => .draining c e
  | .draining c e, res :: rest => drain size (receive size c e res) rest

/-- The entry `;addr:err` that line 139 appends for a failed result. -/
def entry (res : RpcResult) : String :=
  ";" ++ res.Addr ++ ":" ++ res.Err.getD ""

/-- The text `rpcErr` after the failed results `l` have been received. -/
def joinErrs (l : List RpcResult) : String :=
  String.join (l.map entry)

/-- What a goroutine has sent into the channel. -/
def GoPc.sent : GoPc → Option RpcResult
  | .done _ r => some r
  | _ => none

/-- An upper bound on the steps a goroutine still takes before it ends. -/
def GoPc.remaining : GoPc → Nat
  | .conn .start => 8
  | .conn .waitLock => 7
  | .conn .locked => 6
  | .conn .lockedNew => 5
  | .conn (.lockedGet _) => 4
  | .conn (.fastGet _) => 4
  | .conn (.ret _) => 3
  | .bound _ => 2
  | .send _ _ => 1
  | .done _ _ => 0

/-- Goroutine `i` is not kept waiting: it holds the exclusive lock where the
code holds it, and the lock is free otherwise. -/
def GoPc.canMove (i : Nat) (lock : Option Nat) : GoPc → Prop
  | .conn .locked => lock = some i
  | .conn .lockedNew => lock = some i
  | .conn (.lockedGet _) => lock = some i
  | _ => lock = none

/-- Whether the text starts with the pattern. -/
def startsWith : List Char → List Char → Bool
  | [], _ => true
  | _ :: _, [] => false
  | p :: ps, c :: cs => p == c && startsWith ps cs

/-- Number of places of a text at which the pattern occurs. -/
def occurrences (pat : List Char) : List Char → Nat
  | [] => if pat.isEmpty then 1 else 0
  | c :: cs => (if startsWith pat (c :: cs) then 1 else 0) + occurrences pat cs

/-- Where a goroutine of `SendRpc` stands with respect to `getOrCreateConn`:
after line 113 it has returned from it. -/
def GoPc.view : GoPc → ConnPc
  | .conn pc => pc
  | .bound c => .ret (.ok c)
  | .send acq _ => .ret acq
  | .done acq _ => .ret acq

/-- The goroutines of a `SendRpc` call seen as callers of `getOrCreateConn`. -/
def Config.registry (cfg : Config) : RegConfig :=
  { world := cfg.world, callers := cfg.gos.map (fun g => (g.1, g.2.view)) }

/-- The goroutines run one after the other, eight steps each. -/
def attemptsSched : Nat → List Tid
  | 0 => []
  | n + 1 => attemptsSched n ++ List.replicate 8 (Tid.go n)

/-- `SendRpc` under the interleaving `sched`: the state reached. -/
def SendRpc (lib : PoolLib) (w : World) (ctx : RpcContext) (rpcFunc : Rpc)
    (sched : List Tid) : Config :=
  run lib rpcFunc sched (launch w ctx)

/-- The value `SendRpc` has returned, `none` while it is still receiving. -/
def Config.ret (cfg : Config) : Option RpcResult :=
  match cfg.main with
  | .returned r => some r
  | .draining _ _ => none

/-! ## Observations on histories -/

/-- A successful `pool.New` for `addr`. -/
def isNewOk (addr : String) : Event → Bool
  | .poolNew _ a (.ok _) => a == addr
  | _ => false

/-- Any call of `pool.New` for `addr`. -/
def isNew (addr : String) : Event → Bool
  | .poolNew _ a _ => a == addr
  | _ => false

/-- A call of the adapter (`NewRpcClient` or `Stub_Func`) by goroutine `tid`. -/
def isAdapter (tid : Nat) : Event → Bool
  | .newRpcClient t _ _ => t == tid
  | .stubFunc t _ _ _ _ _ => t == tid
  | _ => false

/-- Number of successful `pool.New` calls for `addr` in a history. -/
def newOkCount (addr : String) (log : List Event) : Nat :=
  log.countP (isNewOk addr)

/-- Number of `pool.New` calls for `addr` in a history. -/
def newCount (addr : String) (log : List Event) : Nat :=
  log.countP (isNew addr)

/-! ## Sample environments -/

/-- A pool library that always succeeds. -/
def libOk : PoolLib :=
  { New := fun _ a => .ok a.length, Get := fun _ p => .ok (p + 100) }

/-- A pool library whose `New` always fails. -/
def libNewFails : PoolLib :=
  { New := fun _ _ => .error "refused", Get := fun _ p => .ok (p + 100) }

/-- A pool library whose `Get` always fails. -/
def libGetFails : PoolLib :=
  { New := fun _ a => .ok a.length, Get := fun _ _ => .error "exhausted" }

/-- The pool library of the three replica example. -/
def libReplicas : PoolLib :=
  { New := fun _ a =>
      if a = "10.0.0.1:6666" then .ok 1
      else if a = "10.0.0.2:6666" then .ok 2
      else if a = "10.0.0.3:6666" then .ok 3
      else .error "no such host"
    Get := fun _ p => .ok (p + 100) }

/-- The connection handed to the latest `NewRpcClient`. -/
def lastBound : List Event → Option Conn
  | [] => none
  | e :: es =>
    match lastBound es with
    | some c => some c
    | none =>
      match e with
      | .newRpcClient _ _ c => some c
      | _ => none

/-- An adapter that answers `{volumeCount: 12}` on the connection of the third
replica and fails with `unavailable` on every other connection. -/
def rpcThird : Rpc :=
  { Stub_Func := fun log _ _ =>
      if lastBound log = some 103 then (some "{volumeCount: 12}", none)
      else (none, some "unavailable") }

/-- An adapter that always fails with `deadline-exceeded`. -/
def rpcDeadline : Rpc :=
  { Stub_Func := fun _ _ _ => (none, some "deadline-exceeded") }

/-- The three replicas of the example. -/
def ctxReplicas : RpcContext :=
  NewRpcContext ["10.0.0.1:6666", "10.0.0.2:6666", "10.0.0.3:6666"] "ListVolume"

/-- The second attempt fails, the first is still on its way, the third
succeeds. -/
def schedThirdWins : List Tid :=
  List.replicate 8 (Tid.go 1) ++ [Tid.go 0] ++ List.replicate 8 (Tid.go 2)

/-- The single replica of the example. -/
def ctxOne : RpcContext :=
  NewRpcContext ["10.0.0.1:6666"] "ListVolume"

/-- Two replicas. -/
def ctxTwo : RpcContext :=
  NewRpcContext ["10.0.0.1:6666", "10.0.0.2:6666"] "GetVolume"

/-- The process right after `init()`. -/
def world0 : World := { cli := GBaseClient, log := [] }

/-- The process with a pool `7` stored for `10.0.0.1:6666`. -/
def world1 : World := { cli := GBaseClient.store "10.0.0.1:6666" 7, log := [] }

/-! ## Invariants, observations and sample runs used by the theorems -/

/-- What a goroutine standing at a program point of `getOrCreateConn(a)` knows
about the lock and the map. -/
def pcOK (w : World) (i : Nat) (a : String) : ConnPc → Prop
  | .start => w.cli.lock ≠ some i
  | .waitLock => w.cli.lock ≠ some i
  | .ret _ => w.cli.lock ≠ some i
  | .fastGet p => w.cli.lock ≠ some i ∧ w.cli.connPools a = some p
  | .locked => w.cli.lock = some i
  | .lockedNew => w.cli.lock = some i ∧ w.cli.connPools a = none
  | .lockedGet p => w.cli.lock = some i ∧ w.cli.connPools a = some p

/-- Every goroutine stands at a program point consistent with the registry. -/
def ViewsOK (w : World) (vs : List (String × ConnPc)) : Prop :=
  ∀ i a pc, vs[i]? = some (a, pc) → pcOK w i a pc

/-- The possible effects of one step of `getOrCreateConn(a)` by goroutine `i`
on the map and on the history. -/
inductive Effect (lib : PoolLib) (i : Nat) (a : String) (w w' : World) : Prop where
  | silent (hm : w'.cli.connPools = w.cli.connPools) (hl : w'.log = w.log)
  | got (p : Pool) (r : Except String Conn) (hm : w'.cli.connPools = w.cli.connPools)
      (hp : w.cli.connPools a = some p) (hl : w'.log = w.log ++ [Event.poolGet i a p r])
  | newFail (e : String) (hm : w'.cli.connPools = w.cli.connPools)
      (hp : w.cli.connPools a = none) (hn : lib.New w.log a = .error e)
      (hl : w'.log = w.log ++ [Event.poolNew i a (.error e)])
  | newOk (p : Pool) (hm : w'.cli.connPools = (w.cli.store a p).connPools)
      (hp : w.cli.connPools a = none) (hn : lib.New w.log a = .ok p)
      (hl : w'.log = w.log ++ [Event.poolNew i a (.ok p)])

/-- The registry and the history of a run that started from the world `w0`:
`added` is the history of the run itself. -/
structure Tracked (w0 w : World) (added : List Event) : Prop where
  ext : w.log = w0.log ++ added
  kept : ∀ a p, w0.cli.connPools a = some p → w.cli.connPools a = some p
  atMost : ∀ a, newOkCount a w.log ≤ newOkCount a w0.log + 1
  same : ∀ a, w.cli.connPools a = w0.cli.connPools a →
    newOkCount a w.log = newOkCount a w0.log
  created : ∀ a, w.cli.connPools a ≠ w0.cli.connPools a →
    newOkCount a w.log = newOkCount a w0.log + 1
  gets : ∀ t a p r, Event.poolGet t a p r ∈ added → w.cli.connPools a = some p
  news : ∀ t a p, Event.poolNew t a (.ok p) ∈ added →
    w.cli.connPools a = some p ∧ w0.cli.connPools a = none

/-- State of a run of callers of `getOrCreateConn` that started from `w0`. -/
structure RegInv (w0 : World) (cfg : RegConfig) : Prop where
  views : ViewsOK cfg.world cfg.callers
  tracked : ∃ added, Tracked w0 cfg.world added

/-- What holds in a run from `w0` when `pool.New` cannot fail for `a`. -/
structure NoFailInv (a : String) (w0 : World) (cfg : RegConfig) : Prop where
  returned : ∀ (i : Nat) (r : Except String Conn),
    cfg.callers[i]? = some (a, ConnPc.ret r) →
    cfg.world.cli.connPools a ≠ none
  counts : newCount a cfg.world.log + newOkCount a w0.log =
    newOkCount a cfg.world.log + newCount a w0.log

/-- Three callers racing for the same new address: all three miss under the
read lock, caller 1 wins the exclusive lock and creates the pool while the
others wait, then callers 0 and 2 find the pool at their re-check. -/
def raceSched : List RegAction :=
  [.call 0, .call 1, .call 2, .call 1, .call 0, .call 1, .call 1, .call 2, .call 1,
   .call 0, .call 0, .call 0, .call 2, .call 2, .call 2]

/-- The history shows that `e` is the error of a failed acquisition by
goroutine `i` for `a`: a failed `pool.New` or a failed `Get`, wrapped. -/
def AcqErr (added : List Event) (i : Nat) (a e : String) : Prop :=
  (∃ e', e = newFailed a e' ∧ Event.poolNew i a (.error e') ∈ added) ∨
  (∃ p e', e = getFailed a e' ∧ Event.poolGet i a p (.error e') ∈ added)

/-- Goroutine `i` has called neither `NewRpcClient` nor `Stub_Func`. -/
def NoAdapter (added : List Event) (i : Nat) : Prop :=
  ∀ e ∈ added, isAdapter i e = false

/-- What the history says about the result `r` of goroutine `i` for `a`. -/
def Reported (w0 : World) (added : List Event) (i : Nat) (a : String) :
    Except String Conn → RpcResult → Prop
  | .error e, r =>
    r = { Addr := a, Err := some e, Result := none } ∧ AcqErr added i a e ∧
      NoAdapter added i
  | .ok c, r =>
    r.Addr = a ∧ Event.newRpcClient i a c ∈ added ∧
      Event.stubFunc i a w0.cli.timeout w0.cli.retryTimes r.Result r.Err ∈ added

/-- What the history says about goroutine `i` for `a` at its program point. -/
def GoOK (w0 : World) (added : List Event) (i : Nat) (a : String) : GoPc → Prop
  | .conn pc => NoAdapter added i ∧ ∀ e, pc = .ret (.error e) → AcqErr added i a e
  | .bound c => Event.newRpcClient i a c ∈ added
  | .send acq r => Reported w0 added i a acq r
  | .done acq r => Reported w0 added i a acq r

/-- State of a `SendRpc` call on `addrs` that started from the world `w0`;
`added` is the history of the call itself. -/
structure SendInv (w0 : World) (addrs : List String) (cfg : Config)
    (added : List Event) : Prop where
  log : cfg.world.log = w0.log ++ added
  timeout : cfg.world.cli.timeout = w0.cli.timeout
  retry : cfg.world.cli.retryTimes = w0.cli.retryTimes
  size : cfg.size = addrs.length
  addrs : cfg.gos.map Prod.fst = addrs
  chan : ∃ consumed, cfg.arrived = consumed ++ cfg.results ∧
    cfg.main = drain cfg.size (mainInit cfg.size) consumed ∧
    ∀ k, k < consumed.length →
      ∃ c e, drain cfg.size (mainInit cfg.size) (consumed.take k) = MainPc.draining c e
  perm : cfg.arrived.Perm (cfg.gos.filterMap (fun g => g.2.sent))
  gos : ∀ (i : Nat) (a : String) (pc : GoPc), cfg.gos[i]? = some (a, pc) →
    GoOK w0 added i a pc

/-- The error that `getOrCreateConn` returns to goroutine `i` when the call
recorded by the event is a failed call of `i` into the package `pool`. -/
def Event.acqFailure (i : Nat) : Event → Option String
  | .poolNew t a (.error e) => if t = i then some (newFailed a e) else none
  | .poolGet t a _ (.error e) => if t = i then some (getFailed a e) else none
  | _ => none

/-- The acquisition errors of goroutine `i` that a history shows. -/
def acqFailures (i : Nat) (added : List Event) : List String :=
  added.filterMap (Event.acqFailure i)

/-- The acquisition error a goroutine is carrying at its program point: the
error `getOrCreateConn` returned to it, or the error it is reporting. -/
def GoPc.acqError : GoPc → Option String
  | .conn (.ret (.error e)) => some e
  | .send (.error e) _ => some e
  | .done (.error e) _ => some e
  | _ => none

/-- A call of `Stub_Func` was handed this timeout and this retry count. -/
def Event.stubWith (timeout retry : Nat) : Event → Prop
  | .stubFunc _ _ t r _ _ => t = timeout ∧ r = retry
  | _ => True

/-- What the history of a `SendRpc` call that started from `w0` shows about
failed acquisitions and about the calls of `Stub_Func`. -/
structure AcqInv (w0 : World) (cfg : Config) : Prop where
  ext : ∃ added, cfg.world.log = w0.log ++ added
  timeout : cfg.world.cli.timeout = w0.cli.timeout
  retry : cfg.world.cli.retryTimes = w0.cli.retryTimes
  acq : ∀ (i : Nat) (a : String) (pc : GoPc), cfg.gos[i]? = some (a, pc) →
    acqFailures i (cfg.world.log.drop w0.log.length) = pc.acqError.toList
  tids : ∀ j : Nat, cfg.gos.length ≤ j →
    acqFailures j (cfg.world.log.drop w0.log.length) = []
  stubs : ∀ e ∈ cfg.world.log.drop w0.log.length,
    e.stubWith w0.cli.timeout w0.cli.retryTimes

/-- The pool library of the three replicas with the first replica down:
`pool.New` fails for `10.0.0.1:6666`. -/
def libFirstDown : PoolLib :=
  { New := fun _ a =>
      if a = "10.0.0.1:6666" then .error "refused"
      else if a = "10.0.0.2:6666" then .ok 2
      else if a = "10.0.0.3:6666" then .ok 3
      else .error "no such host"
    Get := fun _ p => .ok (p + 100) }

/-- The third attempt gets its connection and binds the adapter, then the
first attempt runs up to its own bind (or to its report, when its acquisition
fails), then the third attempt invokes the adapter and reports. -/
def schedCrossTalk : List Tid :=
  List.replicate 6 (Tid.go 2) ++ List.replicate 6 (Tid.go 0) ++
    List.replicate 2 (Tid.go 2)

/-- The first attempt fails, the third succeeds, the second has not started. -/
def schedSecondPending : List Tid :=
  List.replicate 8 (Tid.go 0) ++ List.replicate 8 (Tid.go 2)

/-- An adapter that always fails with a text ending in a percent sign. -/
def rpcQuota : Rpc :=
  { Stub_Func := fun _ _ _ => (none, some "quota at 100%") }

/-! ## The formatter on samples -/

theorem Errorf_samples :
    Errorf "empty addr" = "empty addr" ∧
    Errorf "100%" = "100%!(NOVERB)" ∧
    Errorf "a%db" = "a%!d(MISSING)b" ∧
    Errorf "a%%b" = "a%b" ∧
    Errorf "a%[1]db" = "a%!d(BADINDEX)b" ∧
    Errorf "a%*db" = "a%!(BADWIDTH)%!d(MISSING)b" ∧
    Errorf "a%-5.2fb" = "a%!f(MISSING)b" := by
  decide

/-! ## Invariants of the registry -/

theorem borrow_cli (lib : PoolLib) (tid : Nat) (addr : String) (p : Pool) (w : World) :
    (borrow lib tid addr p w).2.cli = w.cli := by
  unfold borrow
  cases lib.Get w.log p <;> rfl

theorem borrow_log (lib : PoolLib) (tid : Nat) (addr : String) (p : Pool) (w : World) :
    (borrow lib tid addr p w).2.log =
      w.log ++ [Event.poolGet tid addr p (lib.Get w.log p)] := by
  unfold borrow
  cases lib.Get w.log p <;> rfl

theorem borrow_fst (lib : PoolLib) (tid : Nat) (addr : String) (p : Pool) (w : World) :
    (borrow lib tid addr p w).1 =
      (match lib.Get w.log p with
       | .error e => .error (getFailed addr e)
       | .ok c => .ok c) := by
  unfold borrow
  cases lib.Get w.log p <;> rfl

theorem connStep_effect (lib : PoolLib) (i : Nat) (a : String) (pc : ConnPc) (w : World)
    (h : pcOK w i a pc) : Effect lib i a w (connStep lib i a pc w).2 := by
  cases pc with
  | start =>
    simp only [connStep]
    cases w.cli.lock with
    | some _ => exact .silent rfl rfl
    | none => cases w.cli.connPools a <;> exact .silent rfl rfl
  | fastGet p =>
    exact .got p (lib.Get w.log p) (by simp [connStep, borrow_cli]) h.2
      (by simp [connStep, borrow_log])
  | waitLock =>
    simp only [connStep]
    cases w.cli.lock <;> exact .silent rfl rfl
  | locked =>
    simp only [connStep]
    cases w.cli.connPools a <;> exact .silent rfl rfl
  | lockedNew =>
    simp only [connStep]
    cases hn : lib.New w.log a with
    | error e => exact .newFail e rfl h.2 hn (by simp [World.unlock])
    | ok p => exact .newOk p rfl h.2 hn rfl
  | lockedGet p =>
    exact .got p (lib.Get w.log p) (by simp [connStep, World.unlock, borrow_cli]) h.2
      (by simp [connStep, World.unlock, borrow_log])
  | ret r => exact .silent rfl rfl

theorem connStep_self (lib : PoolLib) (i : Nat) (a : String) (pc : ConnPc) (w : World)
    (h : pcOK w i a pc) :
    pcOK (connStep lib i a pc w).2 i a (connStep lib i a pc w).1 := by
  cases pc with
  | start =>
    simp only [connStep]
    cases hl : w.cli.lock with
    | some _ => simpa [pcOK] using h
    | none => cases hm : w.cli.connPools a <;> simp [pcOK, hl, hm]
  | fastGet p => simpa [connStep, pcOK, borrow_cli] using h.1
  | waitLock =>
    simp only [connStep]
    cases hl : w.cli.lock with
    | some _ => simpa [pcOK] using h
    | none => simp [pcOK]
  | locked =>
    simp only [connStep]
    cases hm : w.cli.connPools a with
    | none => exact ⟨h, hm⟩
    | some p => exact ⟨h, hm⟩
  | lockedNew =>
    simp only [connStep]
    cases lib.New w.log a with
    | error e => simp [pcOK, World.unlock]
    | ok p => exact ⟨h.1, by simp [BaseRpc.store]⟩
  | lockedGet p => simp [connStep, pcOK, World.unlock]
  | ret r => simpa [connStep, pcOK] using h

theorem connStep_other (lib : PoolLib) (i : Nat) (a : String) (pc : ConnPc) (w : World)
    (h : pcOK w i a pc) (j : Nat) (b : String) (q : ConnPc) (hij : j ≠ i)
    (hq : pcOK w j b q) : pcOK (connStep lib i a pc w).2 j b q := by
  have hji : ¬ (i = j) := fun e => hij e.symm
  cases pc with
  | start =>
    simp only [connStep]
    cases hl : w.cli.lock with
    | some _ => exact hq
    | none => cases hm : w.cli.connPools a <;> exact hq
  | fastGet p =>
    cases q <;> simpa [connStep, pcOK, borrow_cli] using hq
  | waitLock =>
    simp only [connStep]
    cases hl : w.cli.lock with
    | some _ => exact hq
    | none => cases q <;> simp_all [pcOK]
  | locked =>
    simp only [connStep]
    cases hm : w.cli.connPools a <;> exact hq
  | lockedNew =>
    simp only [connStep]
    have h1 := h.1
    have h2 := h.2
    cases lib.New w.log a with
    | error e => cases q <;> simp_all [pcOK, World.unlock]
    | ok p =>
      cases q <;> simp_all [pcOK, BaseRpc.store]
      next p' =>
        intro hba
        rw [hba, h2] at hq
        cases hq
  | lockedGet p =>
    have h1 := h.1
    cases q <;> simp_all [connStep, pcOK, World.unlock, borrow_cli]
  | ret r => exact hq

theorem newOkCount_snoc (a : String) (log : List Event) (e : Event) :
    newOkCount a (log ++ [e]) = newOkCount a log + (if isNewOk a e then 1 else 0) := by
  simp [newOkCount, List.countP_append, List.countP_cons]

theorem newCount_snoc (a : String) (log : List Event) (e : Event) :
    newCount a (log ++ [e]) = newCount a log + (if isNew a e then 1 else 0) := by
  simp [newCount, List.countP_append, List.countP_cons]

theorem Tracked.refl (w : World) : Tracked w w [] where
  ext := by simp
  kept := fun _ _ h => h
  atMost := fun _ => Nat.le_succ _
  same := fun _ _ => rfl
  created := fun _ h => absurd rfl h
  gets := by simp
  news := by simp

theorem Tracked.effect {lib : PoolLib} {w0 w w' : World} {added : List Event} {i : Nat}
    {a : String} (h : Tracked w0 w added) (e : Effect lib i a w w') :
    ∃ ev, Tracked w0 w' (added ++ ev) := by
  cases e with
  | silent hm hl =>
    refine ⟨[], ?_⟩
    exact
      { ext := by simp [hl, h.ext]
        kept := by rw [hm]; exact h.kept
        atMost := by rw [hl]; exact h.atMost
        same := by rw [hm, hl]; exact h.same
        created := by rw [hm, hl]; exact h.created
        gets := by simpa [hm] using h.gets
        news := by simpa [hm] using h.news }
  | got p r hm hp hl =>
    refine ⟨[Event.poolGet i a p r], ?_⟩
    exact
      { ext := by simp [hl, h.ext]
        kept := by rw [hm]; exact h.kept
        atMost := by
          intro b; rw [hl, newOkCount_snoc]; simpa [isNewOk] using h.atMost b
        same := by
          intro b; rw [hm, hl, newOkCount_snoc]; simpa [isNewOk] using h.same b
        created := by
          intro b; rw [hm, hl, newOkCount_snoc]; simpa [isNewOk] using h.created b
        gets := by
          intro t b q r' hmem
          rw [hm]
          rcases List.mem_append.1 hmem with hmem | hmem
          · exact h.gets t b q r' hmem
          · simp at hmem
            rcases hmem with ⟨_, rfl, rfl, _⟩
            exact hp
        news := by
          intro t b q hmem
          rw [hm]
          rcases List.mem_append.1 hmem with hmem | hmem
          · exact h.news t b q hmem
          · simp at hmem }
  | newFail e hm hp _ hl =>
    refine ⟨[Event.poolNew i a (.error e)], ?_⟩
    exact
      { ext := by simp [hl, h.ext]
        kept := by rw [hm]; exact h.kept
        atMost := by
          intro b; rw [hl, newOkCount_snoc]; simpa [isNewOk] using h.atMost b
        same := by
          intro b; rw [hm, hl, newOkCount_snoc]; simpa [isNewOk] using h.same b
        created := by
          intro b; rw [hm, hl, newOkCount_snoc]; simpa [isNewOk] using h.created b
        gets := by
          intro t b q r' hmem
          rw [hm]
          rcases List.mem_append.1 hmem with hmem | hmem
          · exact h.gets t b q r' hmem
          · simp at hmem
        news := by
          intro t b q hmem
          rw [hm]
          rcases List.mem_append.1 hmem with hmem | hmem
          · exact h.news t b q hmem
          · simp at hmem }
  | newOk p hm hp _ hl =>
    have h0 : w0.cli.connPools a = none := by
      cases h0 : w0.cli.connPools a with
      | none => rfl
      | some q => rw [h.kept a q h0] at hp; cases hp
    have hbase : newOkCount a w.log = newOkCount a w0.log := h.same a (by rw [hp, h0])
    refine ⟨[Event.poolNew i a (.ok p)], ?_⟩
    exact
      { ext := by simp [hl, h.ext]
        kept := by
          intro b q hb
          rw [hm]
          have hne : b ≠ a := by
            intro hba; rw [hba, h0] at hb; cases hb
          simpa [BaseRpc.store, hne] using h.kept b q hb
        atMost := by
          intro b
          rw [hl, newOkCount_snoc]
          by_cases hba : a = b
          · subst hba; simp [isNewOk, hbase]
          · simpa [isNewOk, hba] using h.atMost b
        same := by
          intro b
          rw [hm, hl, newOkCount_snoc]
          by_cases hba : a = b
          · subst hba; simp [BaseRpc.store, h0]
          · have hne : ¬ (b = a) := fun e => hba e.symm
            simpa [isNewOk, hba, BaseRpc.store, hne] using h.same b
        created := by
          intro b
          rw [hm, hl, newOkCount_snoc]
          by_cases hba : a = b
          · subst hba; simp [isNewOk, hbase]
          · have hne : ¬ (b = a) := fun e => hba e.symm
            simpa [isNewOk, hba, BaseRpc.store, hne] using h.created b
        gets := by
          intro t b q r' hmem
          rw [hm]
          rcases List.mem_append.1 hmem with hmem | hmem
          · have hb := h.gets t b q r' hmem
            have hne : b ≠ a := by
              intro hba; rw [hba, hp] at hb; cases hb
            simpa [BaseRpc.store, hne] using hb
          · simp at hmem
        news := by
          intro t b q hmem
          rw [hm]
          rcases List.mem_append.1 hmem with hmem | hmem
          · have hb := h.news t b q hmem
            have hne : b ≠ a := by
              intro hba; rw [hba, hp] at hb; cases hb.1
            simpa [BaseRpc.store, hne] using hb
          · simp at hmem
            rcases hmem with ⟨_, rfl, rfl⟩
            simp [BaseRpc.store, h0] }

/-- A call of the adapter leaves the registry as it is. -/
theorem Tracked.adapter {w0 w : World} {added : List Event} (h : Tracked w0 w added)
    (e : Event) (he : e.isPool = false) :
    Tracked w0 { w with log := w.log ++ [e] } (added ++ [e]) where
  ext := by simp [h.ext]
  kept := h.kept
  atMost := by
    intro b
    have : isNewOk b e = false := by cases e <;> simp_all [isNewOk, Event.isPool]
    simpa [newOkCount_snoc, this] using h.atMost b
  same := by
    intro b
    have : isNewOk b e = false := by cases e <;> simp_all [isNewOk, Event.isPool]
    simpa [newOkCount_snoc, this] using h.same b
  created := by
    intro b
    have : isNewOk b e = false := by cases e <;> simp_all [isNewOk, Event.isPool]
    simpa [newOkCount_snoc, this] using h.created b
  gets := by
    intro t b q r hmem
    rcases List.mem_append.1 hmem with hmem | hmem
    · exact h.gets t b q r hmem
    · simp at hmem; subst hmem; simp [Event.isPool] at he
  news := by
    intro t b q hmem
    rcases List.mem_append.1 hmem with hmem | hmem
    · exact h.news t b q hmem
    · simp at hmem; subst hmem; simp [Event.isPool] at he

theorem ViewsOK.views_step {w : World} {vs : List (String × ConnPc)} (h : ViewsOK w vs)
    (lib : PoolLib) (i : Nat) (a : String) (pc : ConnPc) (hi : vs[i]? = some (a, pc)) :
    ViewsOK (connStep lib i a pc w).2 (vs.set i (a, (connStep lib i a pc w).1)) := by
  intro j b q hj
  rw [List.getElem?_set] at hj
  by_cases hij : i = j
  · subst hij
    simp only [if_true] at hj
    split at hj
    · cases hj
      exact connStep_self lib i a pc w (h i a pc hi)
    · cases hj
  · simp only [hij, if_false] at hj
    exact connStep_other lib i a pc w (h i a pc hi) j b q (fun e => hij e.symm) (h j b q hj)

theorem RegInv.reg_step {w0 : World} {cfg : RegConfig} (h : RegInv w0 cfg) (lib : PoolLib)
    (act : RegAction) : RegInv w0 (regStep lib cfg act) := by
  cases act with
  | call i =>
    simp only [regStep]
    cases hi : cfg.callers[i]? with
    | none => exact h
    | some v =>
      obtain ⟨a, pc⟩ := v
      obtain ⟨added, ht⟩ := h.tracked
      obtain ⟨ev, ht'⟩ := ht.effect (connStep_effect lib i a pc cfg.world (h.views i a pc hi))
      exact ⟨h.views.views_step lib i a pc hi, _, ht'⟩
  | adapter e =>
    simp only [regStep]
    cases he : e.isPool with
    | true => simpa using h
    | false =>
      obtain ⟨added, ht⟩ := h.tracked
      exact ⟨fun i a pc hi => by cases pc <;> exact h.views i a _ hi, _, ht.adapter e he⟩

theorem RegInv.reg_run {w0 : World} (lib : PoolLib) (sched : List RegAction) :
    ∀ {cfg : RegConfig}, RegInv w0 cfg → RegInv w0 (regRun lib sched cfg) := by
  induction sched with
  | nil => intro cfg h; exact h
  | cons act rest ih => intro cfg h; exact ih (h.reg_step lib act)

theorem regRun_append (lib : PoolLib) (s1 s2 : List RegAction) (cfg : RegConfig) :
    regRun lib (s1 ++ s2) cfg = regRun lib s2 (regRun lib s1 cfg) := by
  simp [regRun, List.foldl_append]

theorem RegInv.reg_start (w : World) (addrs : List String) (hl : w.cli.lock = none) :
    RegInv w (regStart w addrs) := by
  refine ⟨?_, [], Tracked.refl w⟩
  intro i a pc hi
  simp only [regStart, List.getElem?_map] at hi
  cases hx : addrs[i]? with
  | none => simp [hx] at hi
  | some x =>
    simp [hx] at hi
    obtain ⟨_, rfl⟩ := hi
    simp [pcOK, regStart, hl]

theorem Effect.keeps_pools {lib : PoolLib} {i : Nat} {a : String} {w w' : World}
    (e : Effect lib i a w w') (b : String) (hb : w.cli.connPools b ≠ none) :
    w'.cli.connPools b ≠ none := by
  cases e with
  | silent hm _ => rwa [hm]
  | got _ _ hm _ _ => rwa [hm]
  | newFail _ hm _ _ _ => rwa [hm]
  | newOk p hm _ _ _ =>
    rw [hm]
    by_cases hba : b = a
    · simp [BaseRpc.store, hba]
    · simpa [BaseRpc.store, hba] using hb

/-- When `pool.New` cannot fail for `a`, a caller that has returned from
`getOrCreateConn(a)` leaves a pool for `a` behind. -/
theorem connStep_returned (lib : PoolLib) (i : Nat) (a : String) (pc : ConnPc) (w : World)
    (h : pcOK w i a pc) (hnf : ∀ l, ∃ p, lib.New l a = .ok p)
    (hold : ∀ r, pc = .ret r → w.cli.connPools a ≠ none) :
    ∀ r, (connStep lib i a pc w).1 = .ret r →
      (connStep lib i a pc w).2.cli.connPools a ≠ none := by
  intro r hr
  cases pc with
  | start =>
    simp only [connStep] at hr
    cases hl : w.cli.lock with
    | some _ => simp [hl] at hr
    | none => cases hm : w.cli.connPools a <;> simp [hl, hm] at hr
  | fastGet p => simp [connStep, borrow_cli, h.2]
  | waitLock =>
    simp only [connStep] at hr
    cases hl : w.cli.lock <;> simp [hl] at hr
  | locked =>
    simp only [connStep] at hr
    cases hm : w.cli.connPools a <;> simp [hm] at hr
  | lockedNew =>
    obtain ⟨p, hp⟩ := hnf w.log
    simp [connStep, hp] at hr
  | lockedGet p => simp [connStep, World.unlock, borrow_cli, h.2]
  | ret r' => exact hold r' rfl

theorem Effect.counts {lib : PoolLib} {i : Nat} {a b : String} {w w' : World}
    (e : Effect lib i b w w') (hnf : ∀ l, ∃ p, lib.New l a = .ok p) (base1 base2 : Nat)
    (h : newCount a w.log + base1 = newOkCount a w.log + base2) :
    newCount a w'.log + base1 = newOkCount a w'.log + base2 := by
  cases e with
  | silent _ hl => rwa [hl]
  | got _ _ _ _ hl => rw [hl, newCount_snoc, newOkCount_snoc]; simpa [isNew, isNewOk] using h
  | newFail e _ _ hn hl =>
    rw [hl, newCount_snoc, newOkCount_snoc]
    by_cases hba : b = a
    · subst hba
      obtain ⟨p, hp⟩ := hnf w.log
      rw [hp] at hn; cases hn
    · simpa [isNew, isNewOk, hba] using h
  | newOk p _ _ _ hl =>
    rw [hl, newCount_snoc, newOkCount_snoc]
    by_cases hba : b = a
    · simp [isNew, isNewOk, hba]; omega
    · simpa [isNew, isNewOk, hba] using h

theorem NoFailInv.nofail_step {a : String} {w0 : World} {cfg : RegConfig} (lib : PoolLib)
    (hnf : ∀ l, ∃ p, lib.New l a = .ok p) (hv : ViewsOK cfg.world cfg.callers)
    (h : NoFailInv a w0 cfg) (act : RegAction) : NoFailInv a w0 (regStep lib cfg act) := by
  cases act with
  | call i =>
    simp only [regStep]
    cases hi : cfg.callers[i]? with
    | none => exact h
    | some v =>
      obtain ⟨b, pc⟩ := v
      have heff := connStep_effect lib i b pc cfg.world (hv i b pc hi)
      refine ⟨?_, heff.counts hnf _ _ h.counts⟩
      intro j r hj
      simp only [List.getElem?_set] at hj
      by_cases hij : i = j
      · subst hij
        simp only [if_true] at hj
        split at hj
        · simp only [Option.some.injEq, Prod.mk.injEq] at hj
          obtain ⟨hb, hr⟩ := hj
          subst hb
          exact connStep_returned lib i b pc cfg.world (hv i b pc hi) hnf
            (fun r' hr' => h.returned i r' (by rw [hi, hr'])) r hr
        · cases hj
      · simp only [hij, if_false] at hj
        exact heff.keeps_pools a (h.returned j r hj)
  | adapter e =>
    simp only [regStep]
    cases he : e.isPool with
    | true => simpa using h
    | false =>
      refine ⟨h.returned, ?_⟩
      have h1 : isNew a e = false := by cases e <;> simp_all [isNew, Event.isPool]
      have h2 : isNewOk a e = false := by cases e <;> simp_all [isNewOk, Event.isPool]
      simpa [newCount_snoc, newOkCount_snoc, h1, h2] using h.counts

theorem NoFailInv.nofail_run {a : String} {w0 : World} (lib : PoolLib)
    (hnf : ∀ l, ∃ p, lib.New l a = .ok p) (sched : List RegAction) :
    ∀ {cfg : RegConfig}, RegInv w0 cfg → NoFailInv a w0 cfg →
      NoFailInv a w0 (regRun lib sched cfg) := by
  induction sched with
  | nil => intro cfg _ h; exact h
  | cons act rest ih =>
    intro cfg hr h
    exact ih (hr.reg_step lib act) (h.nofail_step lib hnf hr.views act)

theorem NoFailInv.nofail_start (a : String) (w : World) (addrs : List String) :
    NoFailInv a w (regStart w addrs) := by
  refine ⟨?_, by simp [regStart, Nat.add_comm]⟩
  intro i r hi
  simp only [regStart, List.getElem?_map] at hi
  cases hx : addrs[i]? <;> simp [hx] at hi

/-! ## A caller running alone -/

theorem set_same {α : Type} {l : List α} {i : Nat} {x : α} (h : l[i]? = some x) :
    l.set i x = l := by
  apply List.ext_getElem?
  intro j
  rw [List.getElem?_set]
  by_cases hij : i = j
  · subst hij
    obtain ⟨hlt, _⟩ := List.getElem?_eq_some.1 h
    simp [hlt, h]
  · simp [hij]

theorem regRun_call_iter (lib : PoolLib) (i : Nat) (a : String) :
    ∀ (n : Nat) (cfg : RegConfig) (pc : ConnPc), cfg.callers[i]? = some (a, pc) →
      regRun lib (List.replicate n (RegAction.call i)) cfg =
        { world := (connIter lib i a n (pc, cfg.world)).2
          callers := cfg.callers.set i (a, (connIter lib i a n (pc, cfg.world)).1) } := by
  intro n
  induction n with
  | zero =>
    intro cfg pc hi
    simp only [List.replicate, regRun, List.foldl, connIter]
    rw [set_same hi]
  | succ n ih =>
    intro cfg pc hi
    obtain ⟨hlt, _⟩ := List.getElem?_eq_some.1 hi
    have hstep : regStep lib cfg (RegAction.call i) =
        { world := (connStep lib i a pc cfg.world).2
          callers := cfg.callers.set i (a, (connStep lib i a pc cfg.world).1) } := by
      simp [regStep, hi]
    have hi' : (regStep lib cfg (RegAction.call i)).callers[i]? =
        some (a, (connStep lib i a pc cfg.world).1) := by
      rw [hstep]; simp [List.getElem?_set, hlt]
    have := ih (regStep lib cfg (RegAction.call i)) _ hi'
    simp only [List.replicate, regRun, List.foldl] at this ⊢
    rw [this, hstep]
    simp [connIter, List.set_set]

/-- Five steps of a goroutine that is not interfered with and finds the lock
free are one call of `getOrCreateConn`. -/
theorem connIter_five (lib : PoolLib) (i : Nat) (a : String) (w : World)
    (hl : w.cli.lock = none) :
    connIter lib i a 5 (ConnPc.start, w) =
      (ConnPc.ret (getOrCreateConn lib i a w).1, (getOrCreateConn lib i a w).2) := by
  obtain ⟨⟨timeout, retry, lock, pools⟩, log⟩ := w
  simp only at hl
  subst hl
  have hret : ∀ (n : Nat) (r : Except String Conn) (w : World),
      connIter lib i a n (ConnPc.ret r, w) = (ConnPc.ret r, w) := by
    intro n
    induction n with
    | zero => intro r w; rfl
    | succ n ih => intro r w; simp only [connIter, connStep]; exact ih r w
  cases hm : pools a with
  | some p =>
    have h1 : connStep lib i a ConnPc.start ⟨⟨timeout, retry, none, pools⟩, log⟩ =
        (ConnPc.fastGet p, ⟨⟨timeout, retry, none, pools⟩, log⟩) := by
      simp [connStep, hm]
    rw [connIter, h1, connIter]
    simp only [connStep, hret, getOrCreateConn, hm]
  | none =>
    have h1 : connStep lib i a ConnPc.start ⟨⟨timeout, retry, none, pools⟩, log⟩ =
        (ConnPc.waitLock, ⟨⟨timeout, retry, none, pools⟩, log⟩) := by
      simp [connStep, hm]
    have h2 : connStep lib i a ConnPc.waitLock ⟨⟨timeout, retry, none, pools⟩, log⟩ =
        (ConnPc.locked, ⟨⟨timeout, retry, some i, pools⟩, log⟩) := by
      simp [connStep]
    have h3 : connStep lib i a ConnPc.locked ⟨⟨timeout, retry, some i, pools⟩, log⟩ =
        (ConnPc.lockedNew, ⟨⟨timeout, retry, some i, pools⟩, log⟩) := by
      simp [connStep, hm]
    rw [connIter, h1, connIter, h2, connIter, h3, connIter]
    cases hn : lib.New log a with
    | error e =>
      have h4 : connStep lib i a ConnPc.lockedNew ⟨⟨timeout, retry, some i, pools⟩, log⟩ =
          (ConnPc.ret (.error (newFailed a e)),
            ⟨⟨timeout, retry, none, pools⟩, log ++ [Event.poolNew i a (.error e)]⟩) := by
        simp [connStep, hn, World.unlock]
      rw [h4, hret]
      simp [getOrCreateConn, hm, hn]
    | ok p =>
      have h4 : connStep lib i a ConnPc.lockedNew ⟨⟨timeout, retry, some i, pools⟩, log⟩ =
          (ConnPc.lockedGet p,
            ⟨(BaseRpc.mk timeout retry (some i) pools).store a p,
              log ++ [Event.poolNew i a (.ok p)]⟩) := by
        simp [connStep, hn]
      rw [h4, connIter, connIter]
      simp only [connStep, getOrCreateConn, hm, hn, borrow, World.unlock, BaseRpc.store]
      cases lib.Get (log ++ [Event.poolNew i a (Except.ok p)]) p <;> rfl

theorem solo_run (lib : PoolLib) (cfg : RegConfig) (i : Nat) (a : String)
    (hl : cfg.world.cli.lock = none) (hi : cfg.callers[i]? = some (a, ConnPc.start)) :
    regRun lib (solo i) cfg =
      { world := (getOrCreateConn lib i a cfg.world).2
        callers := cfg.callers.set i (a, ConnPc.ret (getOrCreateConn lib i a cfg.world).1) } := by
  rw [solo, regRun_call_iter lib i a 5 cfg _ hi, connIter_five lib i a cfg.world hl]

theorem getOrCreateConn_lock (lib : PoolLib) (tid : Nat) (addr : String) (w : World) :
    (getOrCreateConn lib tid addr w).2.cli.lock = w.cli.lock := by
  unfold getOrCreateConn
  cases hm : w.cli.connPools addr with
  | some q => simp [borrow_cli]
  | none =>
    cases hn : lib.New w.log addr with
    | error e => simp
    | ok q => simp [borrow_cli, BaseRpc.store]

/-- Running the callers one after the other brings each of them to its
return, with the lock free again. -/
theorem soloSched_returns (lib : PoolLib) (addrs : List String) (w : World)
    (hl : w.cli.lock = none) :
    ∀ n, n ≤ addrs.length →
      (regRun lib (soloSched n) (regStart w addrs)).world.cli.lock = none ∧
      (regRun lib (soloSched n) (regStart w addrs)).callers.length = addrs.length ∧
      (∀ j a, n ≤ j → addrs[j]? = some a →
        (regRun lib (soloSched n) (regStart w addrs)).callers[j]? =
          some (a, ConnPc.start)) ∧
      (∀ j, j < n → ∃ a r,
        (regRun lib (soloSched n) (regStart w addrs)).callers[j]? =
          some (a, ConnPc.ret r)) := by
  intro n
  induction n with
  | zero =>
    intro _
    refine ⟨hl, by simp [soloSched, regRun, regStart], ?_, by simp⟩
    intro j a _ hj
    simp [soloSched, regRun, regStart, List.getElem?_map, hj]
  | succ n ih =>
    intro hn
    obtain ⟨h1, h2, h3, h4⟩ := ih (Nat.le_of_succ_le hn)
    have hnlt : n < addrs.length := hn
    have hget : addrs[n]? = some addrs[n] := List.getElem?_eq_getElem hnlt
    have hstart := h3 n addrs[n] (Nat.le_refl n) hget
    have hrun := solo_run lib _ n addrs[n] h1 hstart
    simp only [soloSched, regRun_append]
    rw [hrun]
    refine ⟨?_, ?_, ?_, ?_⟩
    · simp only [getOrCreateConn_lock]; exact h1
    · simp [h2]
    · intro j a hj haj
      have hne : n ≠ j := by omega
      simp only [List.getElem?_set, hne, if_false]
      exact h3 j a (by omega) haj
    · intro j hj
      by_cases hjn : n = j
      · subst hjn
        refine ⟨addrs[n],
          (getOrCreateConn lib n addrs[n]
            (regRun lib (soloSched n) (regStart w addrs)).world).1, ?_⟩
        simp only [List.getElem?_set, h2, hnlt, if_true]
      · simp only [List.getElem?_set, hjn, if_false]
        exact h4 j (by omega)

/-! ## `SendRpc` reaches the registry through `getOrCreateConn` only -/

theorem goStep_conn (lib : PoolLib) (rpcFunc : Rpc) (cfg : Config) (i : Nat) (a : String)
    (cpc : ConnPc) (hne : ∀ r, cpc ≠ .ret r) :
    goStep lib rpcFunc i a (.conn cpc) cfg =
      (.conn (connStep lib i a cpc cfg.world).1,
        { cfg with world := (connStep lib i a cpc cfg.world).2 }) := by
  cases cpc with
  | ret r => exact absurd rfl (hne r)
  | _ => rfl

theorem step_go (lib : PoolLib) (rpcFunc : Rpc) (cfg : Config) (i : Nat) (a : String)
    (pc : GoPc) (hi : cfg.gos[i]? = some (a, pc)) :
    step lib rpcFunc cfg (Tid.go i) =
      { (goStep lib rpcFunc i a pc cfg).2 with
        gos := (goStep lib rpcFunc i a pc cfg).2.gos.set i
          (a, (goStep lib rpcFunc i a pc cfg).1) } := by
  simp [step, hi]

theorem registry_set (cfg : Config) (i : Nat) (a : String) (pc' pc : GoPc)
    (hi : cfg.gos[i]? = some (a, pc)) (hv : pc'.view = pc.view) :
    (cfg.gos.set i (a, pc')).map (fun g => (g.1, g.2.view)) =
      cfg.gos.map (fun g => (g.1, g.2.view)) := by
  rw [List.map_set]
  exact set_same (by simp [List.getElem?_map, hi, hv])

/-- A step of `SendRpc` is, on the registry and the history, at most one step
of a caller of `getOrCreateConn` or one call of the adapter. -/
theorem step_simulated (lib : PoolLib) (rpcFunc : Rpc) (cfg : Config) (t : Tid) :
    ∃ acts, (step lib rpcFunc cfg t).registry = regRun lib acts cfg.registry := by
  cases t with
  | main =>
    refine ⟨[], ?_⟩
    simp only [step, regRun, List.foldl]
    cases hm : cfg.main with
    | returned r => rfl
    | draining c e => cases hres : cfg.results <;> rfl
  | go i =>
    cases hi : cfg.gos[i]? with
    | none => exact ⟨[], by simp [step, hi, regRun]⟩
    | some v =>
      obtain ⟨a, pc⟩ := v
      rw [step_go lib rpcFunc cfg i a pc hi]
      cases pc with
      | conn cpc =>
        by_cases hret : ∃ r, cpc = .ret r
        · obtain ⟨r, rfl⟩ := hret
          cases r with
          | error e =>
            refine ⟨[], ?_⟩
            simp only [goStep, regRun, List.foldl, Config.registry]
            rw [registry_set cfg i a (.send (.error e) ⟨a, some e, none⟩) _ hi rfl]
          | ok c =>
            refine ⟨[RegAction.adapter (Event.newRpcClient i a c)], ?_⟩
            simp only [goStep, regRun, List.foldl, Config.registry, regStep, Event.isPool]
            rw [registry_set cfg i a (.bound c) _ hi rfl]
            rfl
        · have hne : ∀ r, cpc ≠ .ret r := fun r hr => hret ⟨r, hr⟩
          refine ⟨[RegAction.call i], ?_⟩
          rw [goStep_conn lib rpcFunc cfg i a cpc hne]
          have hc : cfg.registry.callers[i]? = some (a, cpc) := by
            simp [Config.registry, List.getElem?_map, hi, GoPc.view]
          simp only [regRun, List.foldl, regStep, hc]
          simp only [Config.registry, List.map_set, GoPc.view]
      | bound c =>
        refine ⟨[RegAction.adapter (Event.stubFunc i a cfg.world.cli.timeout
          cfg.world.cli.retryTimes
          (rpcFunc.Stub_Func cfg.world.log cfg.world.cli.timeout cfg.world.cli.retryTimes).1
          (rpcFunc.Stub_Func cfg.world.log cfg.world.cli.timeout
            cfg.world.cli.retryTimes).2)], ?_⟩
        simp only [goStep, regRun, List.foldl, Config.registry, regStep, Event.isPool]
        rw [registry_set cfg i a (.send (.ok c) _) _ hi rfl]
        rfl
      | send acq r =>
        refine ⟨[], ?_⟩
        simp only [goStep, regRun, List.foldl, Config.registry]
        rw [registry_set cfg i a (.done acq r) _ hi rfl]
      | done acq r =>
        refine ⟨[], ?_⟩
        simp only [goStep, regRun, List.foldl, Config.registry]
        rw [registry_set cfg i a (.done acq r) _ hi rfl]

theorem run_simulated (lib : PoolLib) (rpcFunc : Rpc) (sched : List Tid) :
    ∀ cfg : Config, ∃ acts,
      (run lib rpcFunc sched cfg).registry = regRun lib acts cfg.registry := by
  induction sched with
  | nil => intro cfg; exact ⟨[], rfl⟩
  | cons t rest ih =>
    intro cfg
    obtain ⟨acts1, h1⟩ := step_simulated lib rpcFunc cfg t
    obtain ⟨acts2, h2⟩ := ih (step lib rpcFunc cfg t)
    refine ⟨acts1 ++ acts2, ?_⟩
    simp only [run, List.foldl] at h2 ⊢
    rw [h2, h1, regRun_append]

/-- The world a `SendRpc` call reaches is the world some run of callers of
`getOrCreateConn`, one per address, reaches. -/
theorem sendRpc_simulated (lib : PoolLib) (w : World) (ctx : RpcContext) (rpcFunc : Rpc)
    (sched : List Tid) :
    ∃ acts, (SendRpc lib w ctx rpcFunc sched).world =
      (regRun lib acts (regStart w ctx.addrs)).world := by
  obtain ⟨acts, h⟩ := run_simulated lib rpcFunc sched (launch w ctx)
  refine ⟨acts, ?_⟩
  have hl : (launch w ctx).registry = regStart w ctx.addrs := by
    simp [Config.registry, launch, regStart, GoPc.view]
  rw [← hl, ← h]
  rfl

/-! ## `getOrCreateConn`, sequentially -/

/-- C10: `getOrCreateConn` changes the registry only by adding a pool for the
requested address. Entries of other addresses, an entry already present, the
timeout, the retry count and the lock are unchanged; when `pool.New` fails the
error is returned and the map is unchanged; when `pool.New` succeeds and the
first `Get` fails the error is returned and the new pool is stored. -/
theorem getOrCreateConn_frame (lib : PoolLib) (tid : Nat) (addr : String) (w : World) :
    (∀ a, a ≠ addr →
      (getOrCreateConn lib tid addr w).2.cli.connPools a = w.cli.connPools a) ∧
    (∀ p, w.cli.connPools addr = some p →
      (getOrCreateConn lib tid addr w).2.cli.connPools addr = some p) ∧
    (∀ p, (getOrCreateConn lib tid addr w).2.cli.connPools addr = some p →
      w.cli.connPools addr = some p ∨
        (w.cli.connPools addr = none ∧ lib.New w.log addr = .ok p)) ∧
    (∀ e, w.cli.connPools addr = none → lib.New w.log addr = .error e →
      (getOrCreateConn lib tid addr w).1 = .error (newFailed addr e) ∧
      (getOrCreateConn lib tid addr w).2.cli.connPools = w.cli.connPools) ∧
    (∀ p e, w.cli.connPools addr = none → lib.New w.log addr = .ok p →
      lib.Get (w.log ++ [Event.poolNew tid addr (.ok p)]) p = .error e →
      (getOrCreateConn lib tid addr w).1 = .error (getFailed addr e) ∧
      (getOrCreateConn lib tid addr w).2.cli.connPools addr = some p) ∧
    (getOrCreateConn lib tid addr w).2.cli.timeout = w.cli.timeout ∧
    (getOrCreateConn lib tid addr w).2.cli.retryTimes = w.cli.retryTimes ∧
    (getOrCreateConn lib tid addr w).2.cli.lock = w.cli.lock := by
  unfold getOrCreateConn
  cases hm : w.cli.connPools addr with
  | some q => simp [borrow_cli, hm]
  | none =>
    cases hn : lib.New w.log addr with
    | error e => simp [hm, World.unlock]
    | ok q =>
      refine ⟨?_, ?_, ?_, ?_, ?_, ?_, ?_, ?_⟩
      · intro a ha; simp [borrow_cli, BaseRpc.store, ha]
      · intro p hp; cases hp
      · intro p hp
        simp [borrow_cli, BaseRpc.store] at hp
        right; exact ⟨rfl, by rw [hp]⟩
      · intro e _ h; cases h
      · intro p e _ h hg
        cases h
        simp [borrow_cli, borrow_fst, BaseRpc.store, hg]
      · simp [borrow_cli, BaseRpc.store]
      · simp [borrow_cli, BaseRpc.store]
      · simp [borrow_cli, BaseRpc.store]

/-- Witness of C10: on the fresh registry a failing `pool.New` returns its
error and stores nothing. -/
theorem getOrCreateConn_frame_witness :
    (getOrCreateConn libNewFails 0 "10.0.0.1:6666" world0).1 =
        .error (newFailed "10.0.0.1:6666" "refused") ∧
      (getOrCreateConn libNewFails 0 "10.0.0.1:6666" world0).2.cli.connPools =
        world0.cli.connPools :=
  (getOrCreateConn_frame libNewFails 0 "10.0.0.1:6666" world0).2.2.2.1 "refused" rfl rfl

/-- C6: the registry keeps the pool of an address once it has one. When
`connPools` holds a pool for the address, `getOrCreateConn` borrows from that
pool (its only external call is `Get` on it, so `pool.New` is not called) and
leaves the registry unchanged. In every interleaving of any callers, with
adapter calls in between, a stored pool is never replaced or removed,
`pool.New` succeeds at most once per address and never for an address that
had a pool, every `Get` is made on the pool stored for its address, and a
stored pool stays stored however the run goes on. The same holds for a
`SendRpc` call under every schedule: it keeps the stored pools and lets
`pool.New` succeed at most once per address. -/
theorem registry_keeps_one_pool (lib : PoolLib) (w : World) (addrs : List String)
    (sched : List RegAction) (ctx : RpcContext) (rpcFunc : Rpc) (ssched : List Tid)
    (hl : w.cli.lock = none) :
    (∀ tid addr p, w.cli.connPools addr = some p →
      (getOrCreateConn lib tid addr w).2.cli = w.cli ∧
      (getOrCreateConn lib tid addr w).2.log =
        w.log ++ [Event.poolGet tid addr p (lib.Get w.log p)] ∧
      (getOrCreateConn lib tid addr w).1 =
        (match lib.Get w.log p with
         | .error e => .error (getFailed addr e)
         | .ok c => .ok c)) ∧
    (∀ a p, w.cli.connPools a = some p →
      (regRun lib sched (regStart w addrs)).world.cli.connPools a = some p) ∧
    (∀ a, newOkCount a (regRun lib sched (regStart w addrs)).world.log ≤
      newOkCount a w.log + 1) ∧
    (∀ a, w.cli.connPools a ≠ none →
      newOkCount a (regRun lib sched (regStart w addrs)).world.log = newOkCount a w.log) ∧
    (∀ t a p r,
      Event.poolGet t a p r ∈
        (regRun lib sched (regStart w addrs)).world.log.drop w.log.length →
      (regRun lib sched (regStart w addrs)).world.cli.connPools a = some p) ∧
    (∀ a p more, (regRun lib sched (regStart w addrs)).world.cli.connPools a = some p →
      (regRun lib more (regRun lib sched (regStart w addrs))).world.cli.connPools a =
        some p) ∧
    (∀ a p, w.cli.connPools a = some p →
      (SendRpc lib w ctx rpcFunc ssched).world.cli.connPools a = some p) ∧
    (∀ a, newOkCount a (SendRpc lib w ctx rpcFunc ssched).world.log ≤
      newOkCount a w.log + 1) := by
  have hinv := RegInv.reg_run lib sched (RegInv.reg_start w addrs hl)
  obtain ⟨added, ht⟩ := hinv.tracked
  obtain ⟨acts, hsim⟩ := sendRpc_simulated lib w ctx rpcFunc ssched
  obtain ⟨_, hts⟩ := (RegInv.reg_run lib acts (RegInv.reg_start w ctx.addrs hl)).tracked
  rw [hsim]
  refine ⟨?_, ht.kept, ht.atMost, ?_, ?_, ?_, hts.kept, hts.atMost⟩
  · intro tid addr p hp
    simp only [getOrCreateConn, hp]
    exact ⟨borrow_cli _ _ _ _ _, borrow_log _ _ _ _ _, borrow_fst _ _ _ _ _⟩
  · intro a ha
    cases h0 : w.cli.connPools a with
    | none => exact absurd h0 ha
    | some p => exact ht.same a (by rw [ht.kept a p h0, h0])
  · intro t a p r hmem
    rw [ht.ext, List.drop_left] at hmem
    exact ht.gets t a p r hmem
  · intro a p more hp
    have hinv2 : RegInv (regRun lib sched (regStart w addrs)).world
        (regRun lib sched (regStart w addrs)) := ⟨hinv.views, [], Tracked.refl _⟩
    obtain ⟨_, ht2⟩ := (RegInv.reg_run lib more hinv2).tracked
    exact ht2.kept a p hp

/-- Witness of C6: with pool `7` stored for `10.0.0.1:6666`, two callers racing
for that address leave pool `7` in place. -/
theorem registry_keeps_one_pool_witness :
    (regRun libOk [.call 0, .call 1, .call 1, .call 0]
      (regStart world1 ["10.0.0.1:6666", "10.0.0.1:6666"])).world.cli.connPools
        "10.0.0.1:6666" = some 7 :=
  (registry_keeps_one_pool libOk world1 ["10.0.0.1:6666", "10.0.0.1:6666"]
    [.call 0, .call 1, .call 1, .call 0] ctxOne rpcDeadline [] rfl).2.1
    "10.0.0.1:6666" 7 (by decide)

/-- C8: callers of `getOrCreateConn` racing for an address `a` that has no pool
create exactly one pool. In every interleaving of the callers' steps (the
read-locked check, taking the exclusive lock, the re-check, `pool.New`, `Get`)
`pool.New` succeeds at most once for `a`; when `pool.New` cannot fail for `a`
and one of the callers for `a` has returned, `pool.New` has been called
exactly once for `a`, it succeeded, and the pool is stored. Running the
callers one after the other brings every caller to its return. -/
theorem first_access_creates_one_pool (lib : PoolLib) (w : World) (addrs : List String)
    (a : String) (sched : List RegAction) (hl : w.cli.lock = none)
    (ha : w.cli.connPools a = none) :
    newOkCount a (regRun lib sched (regStart w addrs)).world.log ≤ newOkCount a w.log + 1 ∧
    ((∀ l, ∃ p, lib.New l a = .ok p) →
      (∃ (i : Nat) (r : Except String Conn),
        (regRun lib sched (regStart w addrs)).callers[i]? = some (a, ConnPc.ret r)) →
      newCount a (regRun lib sched (regStart w addrs)).world.log = newCount a w.log + 1 ∧
      newOkCount a (regRun lib sched (regStart w addrs)).world.log =
        newOkCount a w.log + 1 ∧
      ∃ p, (regRun lib sched (regStart w addrs)).world.cli.connPools a = some p) ∧
    (∀ j : Nat, j < addrs.length → ∃ b r,
      (regRun lib (soloSched addrs.length) (regStart w addrs)).callers[j]? =
        some (b, ConnPc.ret r)) := by
  have hinv := RegInv.reg_run lib sched (RegInv.reg_start w addrs hl)
  obtain ⟨added, ht⟩ := hinv.tracked
  refine ⟨ht.atMost a, ?_, (soloSched_returns lib addrs w hl addrs.length (Nat.le_refl _)).2.2.2⟩
  intro hnf ⟨i, r, hi⟩
  have hnfi := NoFailInv.nofail_run lib hnf sched (RegInv.reg_start w addrs hl) (NoFailInv.nofail_start a w addrs)
  have hpool := hnfi.returned i r hi
  have hcreated := ht.created a (by rw [ha]; exact hpool)
  have hcounts := hnfi.counts
  refine ⟨by omega, hcreated, ?_⟩
  cases hp : (regRun lib sched (regStart w addrs)).world.cli.connPools a with
  | none => exact absurd hp hpool
  | some p => exact ⟨p, rfl⟩

/-- Witness of C8: three callers race for `10.0.0.1:6666` on the fresh
registry; `pool.New` is called once. -/
theorem first_access_creates_one_pool_witness :
    newCount "10.0.0.1:6666"
        (regRun libOk raceSched
          (regStart world0 ["10.0.0.1:6666", "10.0.0.1:6666", "10.0.0.1:6666"])).world.log =
      newCount "10.0.0.1:6666" world0.log + 1 :=
  ((first_access_creates_one_pool libOk world0
      ["10.0.0.1:6666", "10.0.0.1:6666", "10.0.0.1:6666"] "10.0.0.1:6666" raceSched
      rfl rfl).2.1 (fun _ => ⟨_, rfl⟩) ⟨2, .ok 113, by rfl⟩).1

/-! ## The receive loop -/

theorem drain_nil (size : Nat) (m : MainPc) : drain size m [] = m := by
  cases m <;> rfl

theorem drain_returned (size : Nat) (r : RpcResult) (l : List RpcResult) :
    drain size (.returned r) l = .returned r := by
  cases l <;> rfl

theorem drain_append (size : Nat) (l1 l2 : List RpcResult) :
    ∀ m, drain size m (l1 ++ l2) = drain size (drain size m l1) l2 := by
  induction l1 with
  | nil => intro m; simp [drain_nil]
  | cons x xs ih =>
    intro m
    cases m with
    | returned r => simp [drain_returned]
    | draining c e => simp [drain, ih]

theorem appendErr_entry (e : String) (x : RpcResult) (err : String) (hx : x.Err = some err) :
    appendErr e x.Addr err = e ++ entry x := by
  simp [appendErr, entry, hx, String.append_assoc]

theorem joinErrs_snoc (l : List RpcResult) (x : RpcResult) :
    joinErrs (l ++ [x]) = joinErrs l ++ entry x := by
  have h : ∀ (ss : List String) (acc t : String),
      List.foldl (fun r s => r ++ s) acc (ss ++ [t]) =
        List.foldl (fun r s => r ++ s) acc ss ++ t := by
    intro ss
    induction ss with
    | nil => intro acc t; rfl
    | cons y ys ih => intro acc t; simp [ih]
  simp only [joinErrs, List.map_append, List.map_cons, List.map_nil, String.join]
  exact h _ _ _

/-- Failed results keep the loop receiving as long as fewer than `size` have
been counted. -/
theorem drain_failures (size : Nat) (l : List RpcResult) (hl : ∀ x ∈ l, x.Err ≠ none)
    (hlen : l.length < size) :
    drain size (.draining 0 "") l = .draining l.length (joinErrs l) := by
  induction l using List.reverseRecOn with
  | nil => rfl
  | append_singleton xs x ih =>
    have hx : x.Err ≠ none := hl x (by simp)
    have hxs : ∀ y ∈ xs, y.Err ≠ none := fun y hy => hl y (by simp [hy])
    have hlen' : xs.length + 1 < size := by simpa using hlen
    rw [drain_append, ih hxs (by omega)]
    cases hxe : x.Err with
    | none => exact absurd hxe hx
    | some err =>
      have : ¬ (size ≤ xs.length + 1) := by omega
      simp [drain, receive, hxe, this, joinErrs_snoc, appendErr_entry _ x err hxe]

/-- The first result without error is returned. -/
theorem drain_success (size : Nat) (pre post : List RpcResult) (r : RpcResult)
    (hpre : ∀ x ∈ pre, x.Err ≠ none) (hr : r.Err = none) (hlen : pre.length < size) :
    drain size (.draining 0 "") (pre ++ r :: post) = .returned r := by
  rw [drain_append, drain_failures size pre hpre hlen]
  simp [drain, receive, hr, drain_returned]

/-- After `size` failed results the joined error text is returned. -/
theorem drain_all_failed (size : Nat) (l : List RpcResult) (hl : ∀ x ∈ l, x.Err ≠ none)
    (hlen : l.length = size) (hpos : 0 < size) :
    drain size (.draining 0 "") l = .returned (failure (joinErrs l)) := by
  induction l using List.reverseRecOn with
  | nil => simp at hlen; omega
  | append_singleton xs x _ =>
    have hx : x.Err ≠ none := hl x (by simp)
    have hxs : ∀ y ∈ xs, y.Err ≠ none := fun y hy => hl y (by simp [hy])
    have hlen' : xs.length + 1 = size := by simpa using hlen
    rw [drain_append, drain_failures size xs hxs (by omega)]
    cases hxe : x.Err with
    | none => exact absurd hxe hx
    | some err =>
      have : size ≤ xs.length + 1 := by omega
      simp [drain, receive, hxe, this, joinErrs_snoc, appendErr_entry _ x err hxe]

/-! ## Invariants of `SendRpc` -/

theorem AcqErr.append_after {added : List Event} {i : Nat} {a e : String} (h : AcqErr added i a e)
    (evs : List Event) : AcqErr (added ++ evs) i a e := by
  rcases h with ⟨e', h1, h2⟩ | ⟨p, e', h1, h2⟩
  · exact .inl ⟨e', h1, List.mem_append_left _ h2⟩
  · exact .inr ⟨p, e', h1, List.mem_append_left _ h2⟩

theorem NoAdapter.append_quiet {added : List Event} {i : Nat} (h : NoAdapter added i)
    (evs : List Event) (hev : ∀ e ∈ evs, isAdapter i e = false) :
    NoAdapter (added ++ evs) i := by
  intro e he
  rcases List.mem_append.1 he with he | he
  · exact h e he
  · exact hev e he

theorem GoOK.append_events {w0 : World} {added : List Event} {i : Nat} {a : String} {pc : GoPc}
    (h : GoOK w0 added i a pc) (evs : List Event)
    (hev : ∀ e ∈ evs, isAdapter i e = false) : GoOK w0 (added ++ evs) i a pc := by
  cases pc with
  | conn pc => exact ⟨h.1.append_quiet evs hev, fun e he => (h.2 e he).append_after evs⟩
  | bound c => exact List.mem_append_left _ h
  | send acq r =>
    cases acq with
    | error e => exact ⟨h.1, h.2.1.append_after evs, h.2.2.append_quiet evs hev⟩
    | ok c => exact ⟨h.1, List.mem_append_left _ h.2.1, List.mem_append_left _ h.2.2⟩
  | done acq r =>
    cases acq with
    | error e => exact ⟨h.1, h.2.1.append_after evs, h.2.2.append_quiet evs hev⟩
    | ok c => exact ⟨h.1, List.mem_append_left _ h.2.1, List.mem_append_left _ h.2.2⟩

/-- A step inside `getOrCreateConn` only makes calls into the package `pool`,
keeps the timeout and the retry count, and an error it returns is the wrapped
error of the call it has just made. -/
theorem connStep_log (lib : PoolLib) (i : Nat) (a : String) (pc : ConnPc) (w : World) :
    (connStep lib i a pc w).2.cli.timeout = w.cli.timeout ∧
    (connStep lib i a pc w).2.cli.retryTimes = w.cli.retryTimes ∧
    ∃ evs, (connStep lib i a pc w).2.log = w.log ++ evs ∧
      (∀ ev ∈ evs, ev.isPool = true) ∧
      (∀ e, (connStep lib i a pc w).1 = .ret (.error e) →
        pc = .ret (.error e) ∨ AcqErr evs i a e) := by
  cases pc with
  | start =>
    simp only [connStep]
    cases w.cli.lock with
    | some _ => exact ⟨rfl, rfl, [], by simp⟩
    | none => cases w.cli.connPools a <;> exact ⟨rfl, rfl, [], by simp⟩
  | fastGet p =>
    simp only [connStep, borrow]
    cases hg : lib.Get w.log p with
    | error e' =>
      refine ⟨rfl, rfl, [Event.poolGet i a p (.error e')], rfl, by simp [Event.isPool], ?_⟩
      intro e he
      simp only [ConnPc.ret.injEq, Except.error.injEq] at he
      exact .inr (.inr ⟨p, e', he.symm, by simp⟩)
    | ok c => exact ⟨rfl, rfl, [Event.poolGet i a p (.ok c)], rfl, by simp [Event.isPool], by simp⟩
  | waitLock =>
    simp only [connStep]
    cases w.cli.lock <;> exact ⟨rfl, rfl, [], by simp⟩
  | locked =>
    simp only [connStep]
    cases w.cli.connPools a <;> exact ⟨rfl, rfl, [], by simp⟩
  | lockedNew =>
    simp only [connStep]
    cases hn : lib.New w.log a with
    | error e' =>
      refine ⟨rfl, rfl, [Event.poolNew i a (.error e')], rfl, by simp [Event.isPool], ?_⟩
      intro e he
      simp only [ConnPc.ret.injEq, Except.error.injEq] at he
      exact .inr (.inl ⟨e', he.symm, by simp⟩)
    | ok p => exact ⟨rfl, rfl, [Event.poolNew i a (.ok p)], rfl, by simp [Event.isPool], by simp⟩
  | lockedGet p =>
    simp only [connStep, borrow]
    cases hg : lib.Get w.log p with
    | error e' =>
      refine ⟨rfl, rfl, [Event.poolGet i a p (.error e')], rfl, by simp [Event.isPool], ?_⟩
      intro e he
      simp only [ConnPc.ret.injEq, Except.error.injEq] at he
      exact .inr (.inr ⟨p, e', he.symm, by simp⟩)
    | ok c => exact ⟨rfl, rfl, [Event.poolGet i a p (.ok c)], rfl, by simp [Event.isPool], by simp⟩
  | ret r => exact ⟨rfl, rfl, [], by simp [connStep], by simp, fun e he => .inl he⟩

theorem isAdapter_of_isPool (i : Nat) (e : Event) (h : e.isPool = true) :
    isAdapter i e = false := by
  cases e <;> simp_all [isAdapter, Event.isPool]

theorem filterMap_set_same {α β : Type} (f : α → Option β) :
    ∀ (l : List α) (i : Nat) (x y : α), l[i]? = some x → f y = f x →
      (l.set i y).filterMap f = l.filterMap f := by
  intro l
  induction l with
  | nil => intro i x y h; simp at h
  | cons z zs ih =>
    intro i x y h hf
    cases i with
    | zero =>
      simp only [List.getElem?_cons_zero, Option.some.injEq] at h
      subst h
      simp [List.filterMap_cons, hf]
    | succ n =>
      simp only [List.getElem?_cons_succ] at h
      simp [List.filterMap_cons, ih n x y h hf]

theorem filterMap_set_new {α β : Type} (f : α → Option β) :
    ∀ (l : List α) (i : Nat) (x y : α) (r : β), l[i]? = some x → f x = none →
      f y = some r → ((l.set i y).filterMap f).Perm (l.filterMap f ++ [r]) := by
  intro l
  induction l with
  | nil => intro i x y r h; simp at h
  | cons z zs ih =>
    intro i x y r h hx hy
    cases i with
    | zero =>
      simp only [List.getElem?_cons_zero, Option.some.injEq] at h
      subst h
      simp only [List.set_cons_zero, List.filterMap_cons, hx, hy]
      exact (List.perm_append_singleton r _).symm
    | succ n =>
      simp only [List.getElem?_cons_succ] at h
      simp only [List.set_cons_succ, List.filterMap_cons]
      cases f z with
      | none => exact ih n x y r h hx hy
      | some b => exact (ih n x y r h hx hy).cons b

theorem map_fst_set (gos : List (String × GoPc)) (i : Nat) (a : String) (pc pc' : GoPc)
    (hi : gos[i]? = some (a, pc)) :
    (gos.set i (a, pc')).map Prod.fst = gos.map Prod.fst := by
  rw [List.map_set]
  exact set_same (by simp [List.getElem?_map, hi])

/-- A step of goroutine `i` that does not send. -/
theorem SendInv.update {w0 : World} {addrs : List String} {cfg : Config}
    {added : List Event} (h : SendInv w0 addrs cfg added) (i : Nat) (a : String)
    (pc pc' : GoPc) (hi : cfg.gos[i]? = some (a, pc)) (w' : World) (evs : List Event)
    (hlog : w'.log = cfg.world.log ++ evs) (ht : w'.cli.timeout = cfg.world.cli.timeout)
    (hr : w'.cli.retryTimes = cfg.world.cli.retryTimes)
    (hev : ∀ j, j ≠ i → ∀ e ∈ evs, isAdapter j e = false)
    (hsent : pc'.sent = pc.sent) (hpc : GoOK w0 (added ++ evs) i a pc') :
    SendInv w0 addrs { cfg with world := w', gos := cfg.gos.set i (a, pc') }
      (added ++ evs) where
  log := by simp [hlog, h.log]
  timeout := by simp [ht, h.timeout]
  retry := by simp [hr, h.retry]
  size := h.size
  addrs := by simp only [map_fst_set _ i a pc pc' hi, h.addrs]
  chan := h.chan
  perm := by
    have := filterMap_set_same (fun g : String × GoPc => g.2.sent) cfg.gos i (a, pc)
      (a, pc') hi hsent
    simp only [this]
    exact h.perm
  gos := by
    intro j b q hj
    simp only [List.getElem?_set] at hj
    by_cases hij : i = j
    · subst hij
      simp only [if_true] at hj
      split at hj
      · simp only [Option.some.injEq, Prod.mk.injEq] at hj
        obtain ⟨rfl, rfl⟩ := hj
        exact hpc
      · cases hj
    · simp only [hij, if_false] at hj
      exact (h.gos j b q hj).append_events evs (hev j (fun e => hij e.symm))

theorem AcqErr.append_before {evs : List Event} {i : Nat} {a e : String}
    (h : AcqErr evs i a e) (added : List Event) : AcqErr (added ++ evs) i a e := by
  rcases h with ⟨e', h1, h2⟩ | ⟨p, e', h1, h2⟩
  · exact .inl ⟨e', h1, List.mem_append_right _ h2⟩
  · exact .inr ⟨p, e', h1, List.mem_append_right _ h2⟩

theorem SendInv.send_step {w0 : World} {addrs : List String} {cfg : Config}
    {added : List Event} (h : SendInv w0 addrs cfg added) (lib : PoolLib) (rpcFunc : Rpc)
    (t : Tid) : ∃ added', SendInv w0 addrs (step lib rpcFunc cfg t) added' := by
  cases t with
  | main =>
    refine ⟨added, ?_⟩
    simp only [Baserpc.step]
    cases hm : cfg.main with
    | returned r => simpa using h
    | draining c e =>
      cases hres : cfg.results with
      | nil => simpa using h
      | cons res rest =>
        obtain ⟨consumed, h1, h2, h3⟩ := h.chan
        refine ⟨h.log, h.timeout, h.retry, h.size, h.addrs, ?_, h.perm, h.gos⟩
        refine ⟨consumed ++ [res], by simp [h1, hres], ?_, ?_⟩
        · simp only [drain_append]
          rw [← h2, hm]
          simp [drain, drain_nil]
        · intro k hk
          simp only [List.length_append, List.length_singleton] at hk
          by_cases hk' : k < consumed.length
          · rw [List.take_append_of_le_length (Nat.le_of_lt hk')]
            exact h3 k hk'
          · have hke : k = consumed.length := by omega
            subst hke
            simp only [List.take_left']
            exact ⟨c, e, by rw [← h2, hm]⟩
  | go i =>
    cases hi : cfg.gos[i]? with
    | none => exact ⟨added, by simpa [Baserpc.step, hi] using h⟩
    | some v =>
      obtain ⟨a, pc⟩ := v
      have hgo := h.gos i a pc hi
      rw [step_go lib rpcFunc cfg i a pc hi]
      cases pc with
      | conn cpc =>
        by_cases hret : ∃ r, cpc = .ret r
        · obtain ⟨r, rfl⟩ := hret
          cases r with
          | error e =>
            refine ⟨added ++ [], ?_⟩
            exact h.update i a _ (.send (.error e) ⟨a, some e, none⟩) hi cfg.world []
              (by simp) rfl rfl (by simp) rfl
              (by simpa [GoOK, Reported] using ⟨hgo.2 e rfl, hgo.1⟩)
          | ok c =>
            refine ⟨added ++ [Event.newRpcClient i a c], ?_⟩
            exact h.update i a _ (.bound c) hi _ [Event.newRpcClient i a c] rfl rfl rfl
              (by
                intro j hj e he
                simp only [List.mem_singleton] at he
                subst he
                simpa [isAdapter] using fun e => hj e.symm)
              rfl (by simp [GoOK])
        · have hne : ∀ r, cpc ≠ .ret r := fun r hr => hret ⟨r, hr⟩
          obtain ⟨h1, h2, evs, h3, h4, h5⟩ := connStep_log lib i a cpc cfg.world
          rw [goStep_conn lib rpcFunc cfg i a cpc hne]
          exact ⟨added ++ evs, h.update i a _ _ hi _ evs h3 h1 h2
            (fun j _ e he => isAdapter_of_isPool j e (h4 e he)) rfl
            ⟨hgo.1.append_quiet evs (fun e he => isAdapter_of_isPool i e (h4 e he)),
              fun e he => ((h5 e he).elim (fun hh => absurd hh (hne _)) id).append_before added⟩⟩
      | bound c =>
        refine ⟨added ++ [Event.stubFunc i a cfg.world.cli.timeout cfg.world.cli.retryTimes
          (rpcFunc.Stub_Func cfg.world.log cfg.world.cli.timeout cfg.world.cli.retryTimes).1
          (rpcFunc.Stub_Func cfg.world.log cfg.world.cli.timeout cfg.world.cli.retryTimes).2],
          ?_⟩
        exact h.update i a _ _ hi _ _ rfl rfl rfl
          (by
            intro j hj e he
            simp only [List.mem_singleton] at he
            subst he
            simpa [isAdapter] using fun e => hj e.symm)
          rfl
          ⟨rfl, List.mem_append_left _ hgo, by simp [h.timeout, h.retry]⟩
      | send acq r =>
        refine ⟨added, ?_⟩
        obtain ⟨consumed, h1, h2, h3⟩ := h.chan
        refine ⟨h.log, h.timeout, h.retry, h.size, ?_, ?_, ?_, ?_⟩
        · simp only [goStep, map_fst_set _ i a _ _ hi, h.addrs]
        · exact ⟨consumed, by simp [goStep, h1], h2, h3⟩
        · have := filterMap_set_new (fun g : String × GoPc => g.2.sent) cfg.gos i
            (a, .send acq r) (a, .done acq r) r hi rfl rfl
          exact (h.perm.append_right [r]).trans this.symm
        · intro j b q hj
          simp only [goStep, List.getElem?_set] at hj
          by_cases hij : i = j
          · subst hij
            simp only [if_true] at hj
            split at hj
            · simp only [Option.some.injEq, Prod.mk.injEq] at hj
              obtain ⟨rfl, rfl⟩ := hj
              exact hgo
            · cases hj
          · simp only [hij, if_false] at hj
            exact h.gos j b q hj
      | done acq r =>
        refine ⟨added, ?_⟩
        simp only [goStep, set_same hi]
        exact h

theorem SendInv.send_launch (w : World) (ctx : RpcContext) :
    SendInv w ctx.addrs (launch w ctx) [] where
  log := by simp [Baserpc.launch]
  timeout := rfl
  retry := rfl
  size := rfl
  addrs := by simp [Baserpc.launch, Function.comp_def]
  chan := ⟨[], by simp [Baserpc.launch], by simp [Baserpc.launch, drain_nil], by simp⟩
  perm := by
    have : ∀ l : List String,
        (l.map (fun a => (a, GoPc.conn ConnPc.start))).filterMap
          (fun g : String × GoPc => g.2.sent) = [] := by
      intro l
      induction l with
      | nil => rfl
      | cons x xs ih => simp [List.filterMap_cons, GoPc.sent]
    simp [Baserpc.launch, this]
  gos := by
    intro i a pc hi
    simp only [Baserpc.launch, List.getElem?_map] at hi
    cases hx : ctx.addrs[i]? with
    | none => simp [hx] at hi
    | some x =>
      simp [hx] at hi
      obtain ⟨_, rfl⟩ := hi
      exact ⟨by simp [NoAdapter], by simp⟩

theorem SendInv.send_run {w0 : World} {addrs : List String} (lib : PoolLib) (rpcFunc : Rpc)
    (sched : List Tid) :
    ∀ {cfg : Config} {added : List Event}, SendInv w0 addrs cfg added →
      ∃ added', SendInv w0 addrs (run lib rpcFunc sched cfg) added' := by
  induction sched with
  | nil => intro cfg added h; exact ⟨added, h⟩
  | cons t rest ih =>
    intro cfg added h
    obtain ⟨added', h'⟩ := h.send_step lib rpcFunc t
    exact ih h'

theorem sendRpc_inv (lib : PoolLib) (w : World) (ctx : RpcContext) (rpcFunc : Rpc)
    (sched : List Tid) :
    ∃ added, SendInv w ctx.addrs (SendRpc lib w ctx rpcFunc sched) added :=
  SendInv.send_run lib rpcFunc sched (SendInv.send_launch w ctx)

theorem run_append (lib : PoolLib) (rpcFunc : Rpc) (s1 s2 : List Tid) (cfg : Config) :
    run lib rpcFunc (s1 ++ s2) cfg = run lib rpcFunc s2 (run lib rpcFunc s1 cfg) := by
  simp [run, List.foldl_append]

/-- Steps of the caller alone: it receives the waiting results, in order. -/
theorem run_main (lib : PoolLib) (rpcFunc : Rpc) :
    ∀ (n : Nat) (cfg : Config),
      (run lib rpcFunc (List.replicate n Tid.main) cfg).main =
        drain cfg.size cfg.main (cfg.results.take n) ∧
      (run lib rpcFunc (List.replicate n Tid.main) cfg).world = cfg.world ∧
      (run lib rpcFunc (List.replicate n Tid.main) cfg).gos = cfg.gos ∧
      (run lib rpcFunc (List.replicate n Tid.main) cfg).arrived = cfg.arrived := by
  intro n
  induction n with
  | zero => intro cfg; simp [run, drain_nil]
  | succ n ih =>
    intro cfg
    simp only [List.replicate, run, List.foldl]
    have ih' := ih (step lib rpcFunc cfg Tid.main)
    simp only [run] at ih'
    cases hm : cfg.main with
    | returned r =>
      have hs : step lib rpcFunc cfg Tid.main = cfg := by simp [step, hm]
      rw [hs] at ih' ⊢
      simpa [hm, drain_returned] using ih'
    | draining c e =>
      cases hres : cfg.results with
      | nil =>
        have hs : step lib rpcFunc cfg Tid.main = cfg := by simp [step, hm, hres]
        rw [hs] at ih' ⊢
        simpa [hm, hres, drain_nil, drain] using ih'
      | cons res rest =>
        have hs : step lib rpcFunc cfg Tid.main =
            { cfg with main := receive cfg.size c e res, results := rest } := by
          simp [step, hm, hres]
        rw [hs] at ih' ⊢
        simpa [drain] using ih'

/-- What `SendRpc` returns is what the receive loop makes of the results that
have arrived; once every arrived result has been received the two agree. -/
theorem sendRpc_drain (lib : PoolLib) (w : World) (ctx : RpcContext) (rpcFunc : Rpc)
    (sched : List Tid) :
    (∀ x, (SendRpc lib w ctx rpcFunc sched).ret = some x →
      drain ctx.addrs.length (mainInit ctx.addrs.length)
        (SendRpc lib w ctx rpcFunc sched).arrived = .returned x) ∧
    (∀ n, (SendRpc lib w ctx rpcFunc sched).arrived.length ≤ n →
      (SendRpc lib w ctx rpcFunc (sched ++ List.replicate n Tid.main)).main =
        drain ctx.addrs.length (mainInit ctx.addrs.length)
          (SendRpc lib w ctx rpcFunc sched).arrived) ∧
    (SendRpc lib w ctx rpcFunc sched).arrived.length ≤ ctx.addrs.length := by
  obtain ⟨added, h⟩ := sendRpc_inv lib w ctx rpcFunc sched
  obtain ⟨consumed, h1, h2, _⟩ := h.chan
  refine ⟨?_, ?_, ?_⟩
  · intro x hx
    have hm : (SendRpc lib w ctx rpcFunc sched).main = .returned x := by
      simp only [Config.ret] at hx
      cases hm : (SendRpc lib w ctx rpcFunc sched).main with
      | returned r => simp [hm] at hx; rw [hx]
      | draining c e => simp [hm] at hx
    rw [h1, drain_append, ← h.size, ← h2, hm, drain_returned]
  · intro n hn
    have hlen : (SendRpc lib w ctx rpcFunc sched).results.length ≤ n := by
      have := congrArg List.length h1
      simp only [List.length_append] at this
      omega
    have key : SendRpc lib w ctx rpcFunc (sched ++ List.replicate n Tid.main) =
        run lib rpcFunc (List.replicate n Tid.main) (SendRpc lib w ctx rpcFunc sched) := by
      simp only [SendRpc, run_append]
    rw [key, (run_main lib rpcFunc n _).1, List.take_of_length_le hlen, h2, ← drain_append,
      ← h1, h.size]
  · have hlen := h.perm.length_eq
    have hle := List.length_filterMap_le (fun g : String × GoPc => g.2.sent)
      (SendRpc lib w ctx rpcFunc sched).gos
    have hsz := congrArg List.length h.addrs
    simp only [List.length_map] at hsz
    omega

theorem ret_of_main {cfg : Config} {r : RpcResult} (h : cfg.main = .returned r) :
    cfg.ret = some r := by
  simp [Config.ret, h]

theorem ret_cases_of_drain (lib : PoolLib) (w : World) (ctx : RpcContext) (rpcFunc : Rpc)
    (sched : List Tid) (r : RpcResult)
    (h : drain ctx.addrs.length (mainInit ctx.addrs.length)
      (SendRpc lib w ctx rpcFunc sched).arrived = .returned r) :
    ((SendRpc lib w ctx rpcFunc sched).ret = none ∨
      (SendRpc lib w ctx rpcFunc sched).ret = some r) ∧
    ∀ n, (SendRpc lib w ctx rpcFunc sched).arrived.length ≤ n →
      (SendRpc lib w ctx rpcFunc (sched ++ List.replicate n Tid.main)).ret = some r := by
  obtain ⟨h1, h2, _⟩ := sendRpc_drain lib w ctx rpcFunc sched
  constructor
  · cases hret : (SendRpc lib w ctx rpcFunc sched).ret with
    | none => exact .inl rfl
    | some x =>
      have := h1 x hret
      rw [h] at this
      cases this
      exact .inr rfl
  · intro n hn
    exact ret_of_main (by rw [h2 n hn, h])

theorem mainInit_pos {n : Nat} (h : 0 < n) : mainInit n = .draining 0 "" := by
  have : n ≠ 0 := by omega
  simp [mainInit, this]

/-- A list with a result without error splits at the first such result. -/
theorem first_success_split :
    ∀ (l : List RpcResult) (r : RpcResult), r ∈ l → r.Err = none →
      ∃ pre y post, l = pre ++ y :: post ∧ (∀ x ∈ pre, x.Err ≠ none) ∧ y.Err = none := by
  intro l
  induction l with
  | nil => intro r hr; simp at hr
  | cons z zs ih =>
    intro r hr hre
    cases hz : z.Err with
    | none => exact ⟨[], z, zs, rfl, by simp, hz⟩
    | some e =>
      have hr' : r ∈ zs := by
        rcases List.mem_cons.1 hr with h | h
        · subst h; rw [hre] at hz; cases hz
        · exact h
      obtain ⟨pre, y, post, h1, h2, h3⟩ := ih r hr' hre
      refine ⟨z :: pre, y, post, by simp [h1], ?_, h3⟩
      intro x hx
      rcases List.mem_cons.1 hx with h | h
      · subst h; simp [hz]
      · exact h2 x h

theorem sent_eq_some {pc : GoPc} {r : RpcResult} (h : pc.sent = some r) :
    ∃ acq, pc = .done acq r := by
  cases pc with
  | done acq x => simp only [GoPc.sent, Option.some.injEq] at h; exact ⟨acq, by rw [h]⟩
  | _ => simp [GoPc.sent] at h

/-- An arrived result was sent by a goroutine that has ended. -/
theorem SendInv.of_arrived {w0 : World} {addrs : List String} {cfg : Config}
    {added : List Event} (h : SendInv w0 addrs cfg added) {r : RpcResult}
    (hr : r ∈ cfg.arrived) :
    ∃ (j : Nat) (b : String) (acq : Except String Conn),
      cfg.gos[j]? = some (b, GoPc.done acq r) := by
  have hm := (h.perm.mem_iff).1 hr
  obtain ⟨g, hg, hs⟩ := List.mem_filterMap.1 hm
  obtain ⟨acq, hacq⟩ := sent_eq_some hs
  obtain ⟨j, hj⟩ := List.getElem?_of_mem hg
  exact ⟨j, g.1, acq, by rw [hj, ← hacq]⟩

/-- The result of a goroutine that has ended has arrived. -/
theorem SendInv.arrived_of_done {w0 : World} {addrs : List String} {cfg : Config}
    {added : List Event} (h : SendInv w0 addrs cfg added) {i : Nat} {a : String}
    {acq : Except String Conn} {r : RpcResult}
    (hi : cfg.gos[i]? = some (a, GoPc.done acq r)) : r ∈ cfg.arrived := by
  refine (h.perm.mem_iff).2 (List.mem_filterMap.2 ⟨(a, GoPc.done acq r), ?_, rfl⟩)
  exact List.getElem?_mem hi

theorem SendInv.addr_at {w0 : World} {addrs : List String} {cfg : Config}
    {added : List Event} (h : SendInv w0 addrs cfg added) {i : Nat} {a : String}
    {pc : GoPc} (hi : cfg.gos[i]? = some (a, pc)) : addrs[i]? = some a := by
  rw [← h.addrs, List.getElem?_map, hi]
  rfl

/-! ## Failed acquisitions and adapter calls in the history -/

theorem acqFailures_append (i : Nat) (l1 l2 : List Event) :
    acqFailures i (l1 ++ l2) = acqFailures i l1 ++ acqFailures i l2 := by
  simp [acqFailures, List.filterMap_append]

theorem stubWith_of_isPool (t r : Nat) (e : Event) (h : e.isPool = true) :
    e.stubWith t r := by
  cases e <;> simp_all [Event.stubWith, Event.isPool]

/-- The events of a step inside `getOrCreateConn` by goroutine `i`: calls into
the package `pool`, none of them a failure of another goroutine, and a failure
of `i` exactly when the step returns an error. -/
theorem connStep_events (lib : PoolLib) (i : Nat) (a : String) (pc : ConnPc) (w : World) :
    ∃ evs, (connStep lib i a pc w).2.log = w.log ++ evs ∧
      (connStep lib i a pc w).2.cli.timeout = w.cli.timeout ∧
      (connStep lib i a pc w).2.cli.retryTimes = w.cli.retryTimes ∧
      (∀ j, j ≠ i → acqFailures j evs = []) ∧
      ((∀ r, pc ≠ .ret r) →
        acqFailures i evs = (GoPc.conn (connStep lib i a pc w).1).acqError.toList) ∧
      (∀ e ∈ evs, e.isPool = true) := by
  have hne : ∀ j, j ≠ i → ¬ (i = j) := fun j hj e => hj e.symm
  cases pc with
  | start =>
    simp only [connStep]
    cases w.cli.lock with
    | some _ => exact ⟨[], by simp, rfl, rfl, fun _ _ => rfl, fun _ => rfl, by simp⟩
    | none =>
      cases w.cli.connPools a <;>
        exact ⟨[], by simp, rfl, rfl, fun _ _ => rfl, fun _ => rfl, by simp⟩
  | fastGet p =>
    simp only [connStep, borrow]
    cases hg : lib.Get w.log p with
    | error e' =>
      exact ⟨[Event.poolGet i a p (.error e')], rfl, rfl, rfl,
        fun j hj => by simp [acqFailures, Event.acqFailure, hne j hj],
        fun _ => by simp [acqFailures, Event.acqFailure, GoPc.acqError],
        by simp [Event.isPool]⟩
    | ok c =>
      exact ⟨[Event.poolGet i a p (.ok c)], rfl, rfl, rfl,
        fun j _ => by simp [acqFailures, Event.acqFailure],
        fun _ => by simp [acqFailures, Event.acqFailure, GoPc.acqError],
        by simp [Event.isPool]⟩
  | waitLock =>
    simp only [connStep]
    cases w.cli.lock <;>
      exact ⟨[], by simp, rfl, rfl, fun _ _ => rfl, fun _ => rfl, by simp⟩
  | locked =>
    simp only [connStep]
    cases w.cli.connPools a <;>
      exact ⟨[], by simp, rfl, rfl, fun _ _ => rfl, fun _ => rfl, by simp⟩
  | lockedNew =>
    simp only [connStep]
    cases hn : lib.New w.log a with
    | error e' =>
      exact ⟨[Event.poolNew i a (.error e')], rfl, rfl, rfl,
        fun j hj => by simp [acqFailures, Event.acqFailure, hne j hj],
        fun _ => by simp [acqFailures, Event.acqFailure, GoPc.acqError],
        by simp [Event.isPool]⟩
    | ok p =>
      exact ⟨[Event.poolNew i a (.ok p)], rfl, rfl, rfl,
        fun j _ => by simp [acqFailures, Event.acqFailure],
        fun _ => by simp [acqFailures, Event.acqFailure, GoPc.acqError],
        by simp [Event.isPool]⟩
  | lockedGet p =>
    simp only [connStep, borrow]
    cases hg : lib.Get w.log p with
    | error e' =>
      exact ⟨[Event.poolGet i a p (.error e')], rfl, rfl, rfl,
        fun j hj => by simp [acqFailures, Event.acqFailure, hne j hj],
        fun _ => by simp [acqFailures, Event.acqFailure, GoPc.acqError],
        by simp [Event.isPool]⟩
    | ok c =>
      exact ⟨[Event.poolGet i a p (.ok c)], rfl, rfl, rfl,
        fun j _ => by simp [acqFailures, Event.acqFailure],
        fun _ => by simp [acqFailures, Event.acqFailure, GoPc.acqError],
        by simp [Event.isPool]⟩
  | ret r =>
    exact ⟨[], by simp [connStep], rfl, rfl, fun _ _ => rfl,
      fun h => absurd rfl (h r), by simp⟩

/-- The events of one step of goroutine `i`. -/
theorem goStep_events (lib : PoolLib) (rpcFunc : Rpc) (i : Nat) (a : String) (pc : GoPc)
    (cfg : Config) :
    ∃ evs, (goStep lib rpcFunc i a pc cfg).2.world.log = cfg.world.log ++ evs ∧
      (goStep lib rpcFunc i a pc cfg).2.gos = cfg.gos ∧
      (goStep lib rpcFunc i a pc cfg).2.world.cli.timeout = cfg.world.cli.timeout ∧
      (goStep lib rpcFunc i a pc cfg).2.world.cli.retryTimes = cfg.world.cli.retryTimes ∧
      (∀ j, j ≠ i → acqFailures j evs = []) ∧
      pc.acqError.toList ++ acqFailures i evs =
        (goStep lib rpcFunc i a pc cfg).1.acqError.toList ∧
      (∀ e ∈ evs, e.stubWith cfg.world.cli.timeout cfg.world.cli.retryTimes) := by
  cases pc with
  | conn cpc =>
    by_cases hret : ∃ r, cpc = .ret r
    · obtain ⟨r, rfl⟩ := hret
      cases r with
      | error e =>
        exact ⟨[], by simp [goStep], rfl, rfl, rfl, fun _ _ => rfl,
          by simp [goStep, GoPc.acqError, acqFailures], by simp⟩
      | ok c =>
        exact ⟨[Event.newRpcClient i a c], rfl, rfl, rfl, rfl,
          fun j _ => by simp [acqFailures, Event.acqFailure],
          by simp [goStep, GoPc.acqError, acqFailures, Event.acqFailure],
          by simp [Event.stubWith]⟩
    · have hne : ∀ r, cpc ≠ .ret r := fun r hr => hret ⟨r, hr⟩
      obtain ⟨evs, h1, h2, h3, h4, h5, h6⟩ := connStep_events lib i a cpc cfg.world
      rw [goStep_conn lib rpcFunc cfg i a cpc hne]
      refine ⟨evs, h1, rfl, h2, h3, h4, ?_, fun e he => stubWith_of_isPool _ _ e (h6 e he)⟩
      have h0 : (GoPc.conn cpc).acqError = none := by
        cases cpc with
        | ret r => exact absurd rfl (hne r)
        | _ => rfl
      rw [h0, h5 hne]
      rfl
  | bound c =>
    exact ⟨[Event.stubFunc i a cfg.world.cli.timeout cfg.world.cli.retryTimes
        (rpcFunc.Stub_Func cfg.world.log cfg.world.cli.timeout cfg.world.cli.retryTimes).1
        (rpcFunc.Stub_Func cfg.world.log cfg.world.cli.timeout cfg.world.cli.retryTimes).2],
      rfl, rfl, rfl, rfl, fun j _ => by simp [acqFailures, Event.acqFailure],
      by simp [goStep, GoPc.acqError, acqFailures, Event.acqFailure],
      by simp [Event.stubWith]⟩
  | send acq r =>
    refine ⟨[], by simp [goStep], rfl, rfl, rfl, fun _ _ => rfl, ?_, by simp⟩
    cases acq <;> simp [goStep, GoPc.acqError, acqFailures]
  | done acq r =>
    refine ⟨[], by simp [goStep], rfl, rfl, rfl, fun _ _ => rfl, ?_, by simp⟩
    cases acq <;> simp [goStep, GoPc.acqError, acqFailures]

theorem AcqInv.acq_step {w0 : World} {cfg : Config} (h : AcqInv w0 cfg) (lib : PoolLib)
    (rpcFunc : Rpc) (t : Tid) : AcqInv w0 (step lib rpcFunc cfg t) := by
  cases t with
  | main =>
    have hw : (step lib rpcFunc cfg Tid.main).world = cfg.world ∧
        (step lib rpcFunc cfg Tid.main).gos = cfg.gos := by
      simp only [step]
      cases cfg.main with
      | returned r => exact ⟨rfl, rfl⟩
      | draining c e => cases cfg.results <;> exact ⟨rfl, rfl⟩
    exact
      { ext := by rw [hw.1]; exact h.ext
        timeout := by rw [hw.1]; exact h.timeout
        retry := by rw [hw.1]; exact h.retry
        acq := by rw [hw.1, hw.2]; exact h.acq
        tids := by rw [hw.1, hw.2]; exact h.tids
        stubs := by rw [hw.1]; exact h.stubs }
  | go i =>
    cases hi : cfg.gos[i]? with
    | none =>
      have : step lib rpcFunc cfg (Tid.go i) = cfg := by simp [step, hi]
      rw [this]; exact h
    | some v =>
      obtain ⟨a, pc⟩ := v
      obtain ⟨hlt, _⟩ := List.getElem?_eq_some.1 hi
      obtain ⟨evs, h1, h2, h3, h4, h5, h6, h7⟩ := goStep_events lib rpcFunc i a pc cfg
      obtain ⟨added, hadd⟩ := h.ext
      have hdrop0 : cfg.world.log.drop w0.log.length = added := by
        rw [hadd, List.drop_left]
      have hdrop : (cfg.world.log ++ evs).drop w0.log.length = added ++ evs := by
        rw [hadd, List.append_assoc, List.drop_left]
      rw [step_go lib rpcFunc cfg i a pc hi]
      exact
        { ext := ⟨added ++ evs, by simp [h1, hadd]⟩
          timeout := by simp only [h3, h.timeout]
          retry := by simp only [h4, h.retry]
          acq := by
            intro j b q hj
            simp only [h1, h2, hdrop, acqFailures_append] at hj ⊢
            rw [List.getElem?_set] at hj
            by_cases hij : i = j
            · subst hij
              simp only [if_true, hlt] at hj
              simp only [Option.some.injEq, Prod.mk.injEq] at hj
              obtain ⟨_, rfl⟩ := hj
              rw [← hdrop0, h.acq i a pc hi]
              exact h6
            · simp only [hij, if_false] at hj
              rw [h5 j (fun e => hij e.symm), List.append_nil, ← hdrop0]
              exact h.acq j b q hj
          tids := by
            intro j hj
            simp only [h1, h2, hdrop, acqFailures_append, List.length_set] at hj ⊢
            have hji : j ≠ i := by omega
            rw [h5 j hji, List.append_nil, ← hdrop0]
            exact h.tids j hj
          stubs := by
            intro e he
            simp only [h1, hdrop] at he
            rcases List.mem_append.1 he with he | he
            · exact h.stubs e (by rw [hdrop0]; exact he)
            · rw [← h.timeout, ← h.retry]
              exact h7 e he }

theorem AcqInv.acq_run {w0 : World} (lib : PoolLib) (rpcFunc : Rpc) (sched : List Tid) :
    ∀ {cfg : Config}, AcqInv w0 cfg → AcqInv w0 (run lib rpcFunc sched cfg) := by
  induction sched with
  | nil => intro cfg h; exact h
  | cons t rest ih => intro cfg h; exact ih (h.acq_step lib rpcFunc t)

theorem sendRpc_acq (lib : PoolLib) (w : World) (ctx : RpcContext) (rpcFunc : Rpc)
    (sched : List Tid) : AcqInv w (SendRpc lib w ctx rpcFunc sched) := by
  refine AcqInv.acq_run lib rpcFunc sched ?_
  refine ⟨⟨[], by simp [launch]⟩, rfl, rfl, ?_, ?_, ?_⟩
  · intro i a pc hi
    simp only [launch, List.getElem?_map] at hi
    cases hx : ctx.addrs[i]? with
    | none => simp [hx] at hi
    | some x =>
      simp [hx] at hi
      obtain ⟨_, rfl⟩ := hi
      simp [launch, acqFailures, GoPc.acqError]
  · intro j _
    simp [launch, acqFailures]
  · intro e he
    simp [launch] at he

/-! ## Every attempt reports -/

/-- A goroutine that is not kept waiting gets closer to its end with each step
and is not kept waiting afterwards; it touches neither the other goroutines nor
the caller. -/
theorem goStep_progress (lib : PoolLib) (rpcFunc : Rpc) (i : Nat) (a : String) (pc : GoPc)
    (cfg : Config) (h : pc.canMove i cfg.world.cli.lock) :
    (goStep lib rpcFunc i a pc cfg).1.remaining ≤ pc.remaining - 1 ∧
    (goStep lib rpcFunc i a pc cfg).1.canMove i (goStep lib rpcFunc i a pc cfg).2.world.cli.lock ∧
    (goStep lib rpcFunc i a pc cfg).2.gos = cfg.gos := by
  cases pc with
  | conn cpc =>
    cases cpc with
    | start =>
      simp only [GoPc.canMove] at h
      simp only [goStep, connStep, h]
      cases w : cfg.world.cli.connPools a <;> simp [GoPc.remaining, GoPc.canMove, h]
    | fastGet p =>
      simp only [GoPc.canMove] at h
      simp [goStep, connStep, GoPc.remaining, GoPc.canMove, borrow_cli, h]
    | waitLock =>
      simp only [GoPc.canMove] at h
      simp [goStep, connStep, GoPc.remaining, GoPc.canMove, h]
    | locked =>
      simp only [GoPc.canMove] at h
      simp only [goStep, connStep]
      cases w : cfg.world.cli.connPools a <;> simp [GoPc.remaining, GoPc.canMove, h]
    | lockedNew =>
      simp only [GoPc.canMove] at h
      simp only [goStep, connStep]
      cases lib.New cfg.world.log a <;>
        simp [GoPc.remaining, GoPc.canMove, World.unlock, BaseRpc.store, h]
    | lockedGet p =>
      simp [goStep, connStep, GoPc.remaining, GoPc.canMove, World.unlock]
    | ret r =>
      simp only [GoPc.canMove] at h
      cases r <;> simp [goStep, GoPc.remaining, GoPc.canMove, h]
  | bound c =>
    simp only [GoPc.canMove] at h
    simp [goStep, GoPc.remaining, GoPc.canMove, h]
  | send acq r =>
    simp only [GoPc.canMove] at h
    simp [goStep, GoPc.remaining, GoPc.canMove, h]
  | done acq r =>
    simp only [GoPc.canMove] at h
    simp [goStep, GoPc.remaining, GoPc.canMove, h]

/-- Steps of goroutine `i` alone. -/
theorem run_go (lib : PoolLib) (rpcFunc : Rpc) (i : Nat) (a : String) :
    ∀ (n : Nat) (cfg : Config) (pc : GoPc), cfg.gos[i]? = some (a, pc) →
      pc.canMove i cfg.world.cli.lock →
      ∃ pc', (run lib rpcFunc (List.replicate n (Tid.go i)) cfg).gos =
          cfg.gos.set i (a, pc') ∧
        pc'.remaining ≤ pc.remaining - n ∧
        pc'.canMove i (run lib rpcFunc (List.replicate n (Tid.go i)) cfg).world.cli.lock := by
  intro n
  induction n with
  | zero =>
    intro cfg pc hi hm
    exact ⟨pc, by simp [run, set_same hi], by simp, by simpa [run] using hm⟩
  | succ n ih =>
    intro cfg pc hi hm
    obtain ⟨hlt, _⟩ := List.getElem?_eq_some.1 hi
    obtain ⟨h1, h2, h3⟩ := goStep_progress lib rpcFunc i a pc cfg hm
    have hs := step_go lib rpcFunc cfg i a pc hi
    have hi' : (step lib rpcFunc cfg (Tid.go i)).gos[i]? =
        some (a, (goStep lib rpcFunc i a pc cfg).1) := by
      rw [hs]; simp [h3, List.getElem?_set, hlt]
    have hm' : (goStep lib rpcFunc i a pc cfg).1.canMove i
        (step lib rpcFunc cfg (Tid.go i)).world.cli.lock := by
      rw [hs]; exact h2
    obtain ⟨pc', g1, g2, g3⟩ := ih (step lib rpcFunc cfg (Tid.go i)) _ hi' hm'
    refine ⟨pc', ?_, by omega, ?_⟩
    · simp only [List.replicate, run, List.foldl] at g1 ⊢
      rw [g1, hs]
      simp [h3, List.set_set]
    · simpa only [List.replicate, run, List.foldl] using g3

theorem remaining_zero (pc : GoPc) (h : pc.remaining = 0) : ∃ acq r, pc = .done acq r := by
  cases pc with
  | conn cpc => cases cpc <;> simp [GoPc.remaining] at h
  | bound c => simp [GoPc.remaining] at h
  | send acq r => simp [GoPc.remaining] at h
  | done acq r => exact ⟨acq, r, rfl⟩

/-- Running the goroutines one after the other brings each of them to its
end, with the lock free again. -/
theorem attemptsSched_done (lib : PoolLib) (rpcFunc : Rpc) (w : World) (ctx : RpcContext)
    (hl : w.cli.lock = none) :
    ∀ n, n ≤ ctx.addrs.length →
      (SendRpc lib w ctx rpcFunc (attemptsSched n)).world.cli.lock = none ∧
      (SendRpc lib w ctx rpcFunc (attemptsSched n)).gos.length = ctx.addrs.length ∧
      (∀ (j : Nat) (a : String), n ≤ j → ctx.addrs[j]? = some a →
        (SendRpc lib w ctx rpcFunc (attemptsSched n)).gos[j]? =
          some (a, GoPc.conn ConnPc.start)) ∧
      (∀ j : Nat, j < n → ∃ a acq r,
        (SendRpc lib w ctx rpcFunc (attemptsSched n)).gos[j]? =
          some (a, GoPc.done acq r)) := by
  intro n
  induction n with
  | zero =>
    intro _
    refine ⟨hl, by simp [attemptsSched, SendRpc, run, launch], ?_, by simp⟩
    intro j a _ hj
    simp [attemptsSched, SendRpc, run, launch, List.getElem?_map, hj]
  | succ n ih =>
    intro hn
    obtain ⟨h1, h2, h3, h4⟩ := ih (Nat.le_of_succ_le hn)
    have hnlt : n < ctx.addrs.length := hn
    have hget : ctx.addrs[n]? = some ctx.addrs[n] := List.getElem?_eq_getElem hnlt
    have hstart := h3 n ctx.addrs[n] (Nat.le_refl n) hget
    obtain ⟨pc', g1, g2, g3⟩ := run_go lib rpcFunc n ctx.addrs[n] 8 _ _ hstart
      (by simpa [GoPc.canMove] using h1)
    obtain ⟨acq, r, rfl⟩ := remaining_zero pc' (by simpa [GoPc.remaining] using g2)
    have key : SendRpc lib w ctx rpcFunc (attemptsSched (n + 1)) =
        run lib rpcFunc (List.replicate 8 (Tid.go n))
          (SendRpc lib w ctx rpcFunc (attemptsSched n)) := by
      simp only [SendRpc, attemptsSched, run_append]
    rw [key]
    refine ⟨g3, by rw [g1, List.length_set, h2], ?_, ?_⟩
    · intro j a hj haj
      have hne : n ≠ j := by omega
      rw [g1]
      simp only [List.getElem?_set, hne, if_false]
      exact h3 j a (by omega) haj
    · intro j hj
      rw [g1]
      by_cases hjn : n = j
      · subst hjn
        exact ⟨ctx.addrs[n], acq, r, by simp only [List.getElem?_set, h2, hnlt, if_true]⟩
      · simp only [List.getElem?_set, hjn, if_false]
        exact h4 j (by omega)

theorem filterMap_length_of_all {α β : Type} (f : α → Option β) :
    ∀ l : List α, (∀ g ∈ l, ∃ b, f g = some b) → (l.filterMap f).length = l.length := by
  intro l
  induction l with
  | nil => intro _; rfl
  | cons x xs ih =>
    intro h
    obtain ⟨b, hb⟩ := h x (by simp)
    simp [List.filterMap_cons, hb, ih (fun g hg => h g (by simp [hg]))]

/-! ## The aggregated error text -/

theorem doPrintf_plain : ∀ (s : List Char) (fuel : Nat), '%' ∉ s → s.length ≤ fuel →
    doPrintf fuel s = s := by
  intro s
  induction s with
  | nil => intro fuel _ _; cases fuel <;> rfl
  | cons c cs ih =>
    intro fuel hs hlen
    cases fuel with
    | zero => simp at hlen
    | succ fuel =>
      have hc : c ≠ '%' := fun e => hs (by simp [e])
      have hcs : '%' ∉ cs := fun e => hs (by simp [e])
      simp only [List.length_cons, Nat.add_le_add_iff_right] at hlen
      simp [doPrintf, hc, ih fuel hcs hlen]

/-- A format string without a percent sign is the message of its error. -/
theorem Errorf_plain (s : String) (h : '%' ∉ s.data) : Errorf s = s := by
  have hlen : s.data.length ≤ s.length + 1 := by
    cases s
    exact Nat.le_succ _
  unfold Errorf
  rw [doPrintf_plain s.data (s.length + 1) h hlen]

theorem joinErrs_append (l1 l2 : List RpcResult) :
    joinErrs (l1 ++ l2) = joinErrs l1 ++ joinErrs l2 := by
  induction l2 using List.reverseRecOn with
  | nil => simp [joinErrs, String.join]
  | append_singleton xs x ih =>
    rw [← List.append_assoc, joinErrs_snoc, ih, joinErrs_snoc, String.append_assoc]

theorem joinErrs_plain (l : List RpcResult)
    (h : ∀ x ∈ l, '%' ∉ x.Addr.data ∧ '%' ∉ (x.Err.getD "").data) :
    '%' ∉ (joinErrs l).data := by
  induction l using List.reverseRecOn with
  | nil => simp [joinErrs, String.join]
  | append_singleton xs x ih =>
    rw [joinErrs_snoc, String.data_append, List.mem_append]
    intro hm
    rcases hm with hm | hm
    · exact ih (fun y hy => h y (by simp [hy])) hm
    · obtain ⟨h1, h2⟩ := h x (by simp)
      simp only [entry, String.data_append, List.mem_append] at hm
      rcases hm with ((hm | hm) | hm) | hm
      · revert hm; decide
      · exact h1 hm
      · revert hm; decide
      · exact h2 hm

theorem joinErrs_split (l : List RpcResult) (k : Nat) (x : RpcResult) (hk : l[k]? = some x) :
    joinErrs l = joinErrs (l.take k) ++ entry x ++ joinErrs (l.drop (k + 1)) := by
  obtain ⟨hlt, hx⟩ := List.getElem?_eq_some.1 hk
  have hl : l = l.take k ++ x :: l.drop (k + 1) := by
    rw [← hx, ← List.drop_eq_getElem_cons hlt, List.take_append_drop]
  have h1 : joinErrs (x :: l.drop (k + 1)) = entry x ++ joinErrs (l.drop (k + 1)) := by
    have := joinErrs_append [x] (l.drop (k + 1))
    simpa [joinErrs, String.join] using this
  conv_lhs => rw [hl]
  rw [joinErrs_append, h1, String.append_assoc]

theorem all_of_filterMap_length {α β : Type} (f : α → Option β) :
    ∀ l : List α, (l.filterMap f).length = l.length → ∀ g ∈ l, ∃ b, f g = some b := by
  intro l
  induction l with
  | nil => intro _ g hg; simp at hg
  | cons x xs ih =>
    intro h g hg
    cases hx : f x with
    | none =>
      have hle := List.length_filterMap_le f xs
      simp only [List.filterMap_cons, hx, List.length_cons] at h
      omega
    | some b =>
      simp only [List.filterMap_cons, hx, List.length_cons, Nat.add_right_cancel_iff] at h
      rcases List.mem_cons.1 hg with e | e
      · exact ⟨b, by rw [e, hx]⟩
      · exact ih h g e

theorem map_filterMap_fst {β : Type} (f : String × GoPc → Option β) (p : β → String) :
    ∀ l : List (String × GoPc), (∀ g ∈ l, ∃ b, f g = some b ∧ p b = g.1) →
      (l.filterMap f).map p = l.map Prod.fst := by
  intro l
  induction l with
  | nil => intro _; rfl
  | cons x xs ih =>
    intro h
    obtain ⟨b, hb, hp⟩ := h x (by simp)
    simp [List.filterMap_cons, hb, hp, ih (fun g hg => h g (by simp [hg]))]

/-- When as many results have arrived as there are addresses, the addresses of
the results are the addresses of the context, in some order. -/
theorem arrived_addrs (lib : PoolLib) (w : World) (ctx : RpcContext) (rpcFunc : Rpc)
    (sched : List Tid)
    (hall : (SendRpc lib w ctx rpcFunc sched).arrived.length = ctx.addrs.length) :
    ((SendRpc lib w ctx rpcFunc sched).arrived.map (fun x => x.Addr)).Perm ctx.addrs := by
  obtain ⟨added, h⟩ := sendRpc_inv lib w ctx rpcFunc sched
  have hlen : ((SendRpc lib w ctx rpcFunc sched).gos.filterMap
      (fun g : String × GoPc => g.2.sent)).length =
      (SendRpc lib w ctx rpcFunc sched).gos.length := by
    have := congrArg List.length h.addrs
    simp only [List.length_map] at this
    rw [← h.perm.length_eq, hall, this]
  have hallsent := all_of_filterMap_length _ _ hlen
  have hmap := map_filterMap_fst (fun g : String × GoPc => g.2.sent) (fun x => x.Addr)
    (SendRpc lib w ctx rpcFunc sched).gos (by
      intro g hg
      obtain ⟨b, hb⟩ := hallsent g hg
      obtain ⟨acq, hacq⟩ := sent_eq_some hb
      obtain ⟨j, hj⟩ := List.getElem?_of_mem hg
      have hgo := h.gos j g.1 g.2 hj
      rw [hacq] at hgo
      refine ⟨b, hb, ?_⟩
      cases acq with
      | error e => rw [hgo.1]
      | ok c => exact hgo.1)
  have := h.perm.map (fun x : RpcResult => x.Addr)
  rw [hmap, h.addrs] at this
  exact this

/-- When every attempt has reported and failed, `SendRpc` returns the failure
built from the joined error text. -/
theorem sendRpc_all_failed (lib : PoolLib) (w : World) (ctx : RpcContext) (rpcFunc : Rpc)
    (sched : List Tid) (hpos : 1 ≤ ctx.addrs.length)
    (hall : (SendRpc lib w ctx rpcFunc sched).arrived.length = ctx.addrs.length)
    (hfail : ∀ x ∈ (SendRpc lib w ctx rpcFunc sched).arrived, x.Err ≠ none) :
    ((SendRpc lib w ctx rpcFunc sched).ret = none ∨
      (SendRpc lib w ctx rpcFunc sched).ret =
        some (failure (joinErrs (SendRpc lib w ctx rpcFunc sched).arrived))) ∧
    ∀ n, ctx.addrs.length ≤ n →
      (SendRpc lib w ctx rpcFunc (sched ++ List.replicate n Tid.main)).ret =
        some (failure (joinErrs (SendRpc lib w ctx rpcFunc sched).arrived)) := by
  have hd : drain ctx.addrs.length (mainInit ctx.addrs.length)
      (SendRpc lib w ctx rpcFunc sched).arrived =
      .returned (failure (joinErrs (SendRpc lib w ctx rpcFunc sched).arrived)) := by
    rw [mainInit_pos (by omega)]
    exact drain_all_failed _ _ hfail hall (by omega)
  obtain ⟨h1, h2⟩ := ret_cases_of_drain lib w ctx rpcFunc sched _ hd
  exact ⟨h1, fun n hn => h2 n (by omega)⟩

/-- C1: on an empty address list `SendRpc` returns the outcome with `Addr ""`,
the error `empty addr` and no result, under every schedule; no goroutine is
launched and the world is unchanged, so neither `getOrCreateConn` nor the
adapter is called and `connPools` is as before. -/
theorem empty_addrs_fail_fast (lib : PoolLib) (w : World) (ctx : RpcContext)
    (rpcFunc : Rpc) (sched : List Tid) (h : ctx.addrs = []) :
    (SendRpc lib w ctx rpcFunc sched).ret =
        some { Addr := "", Err := some "empty addr", Result := none } ∧
      (SendRpc lib w ctx rpcFunc sched).gos = [] ∧
      (SendRpc lib w ctx rpcFunc sched).world = w ∧
      (SendRpc lib w ctx rpcFunc sched).world.log = w.log ∧
      (SendRpc lib w ctx rpcFunc sched).world.cli.connPools = w.cli.connPools := by
  have hstep : ∀ (cfg : Config) (t : Tid), cfg.gos = [] → (∃ r, cfg.main = .returned r) →
      step lib rpcFunc cfg t = cfg := by
    intro cfg t hg ⟨r, hm⟩
    cases t with
    | main => simp [step, hm]
    | go i => simp [step, hg]
  have hrun : ∀ (sched : List Tid) (cfg : Config), cfg.gos = [] →
      (∃ r, cfg.main = .returned r) → run lib rpcFunc sched cfg = cfg := by
    intro sched
    induction sched with
    | nil => intro cfg _ _; rfl
    | cons t rest ih =>
      intro cfg hg hm
      simp only [run, List.foldl]
      rw [hstep cfg t hg hm]
      exact ih cfg hg hm
  have hl : SendRpc lib w ctx rpcFunc sched = launch w ctx :=
    hrun sched _ (by simp [launch, h]) ⟨_, by simp [launch, h, mainInit]; rfl⟩
  rw [hl]
  have he : Errorf "empty addr" = "empty addr" := by decide
  simp [launch, h, mainInit, Config.ret, he]

/-- Witness of C1: the empty context on the fresh registry. -/
theorem empty_addrs_fail_fast_witness :
    (SendRpc libOk world0 (NewRpcContext [] "ListVolume") ⟨fun _ _ _ => (none, none)⟩
        [Tid.go 0, Tid.main]).ret =
      some { Addr := "", Err := some "empty addr", Result := none } :=
  (empty_addrs_fail_fast libOk world0 (NewRpcContext [] "ListVolume")
    ⟨fun _ _ _ => (none, none)⟩ [Tid.go 0, Tid.main] rfl).1

/-- C3: when the results that have arrived are `pre`, then `r`, then `post`,
with every result of `pre` failed and `r` without error, `SendRpc` returns
exactly `r`: it returns nothing else under any schedule, it returns `r` once
the caller has been scheduled as often as results have arrived, and when it
has returned the results after `r` are still in the channel, unread. The
position of the address of `r` in the address list plays no part. -/
theorem first_success_wins (lib : PoolLib) (w : World) (ctx : RpcContext) (rpcFunc : Rpc)
    (sched : List Tid) (pre post : List RpcResult) (r : RpcResult)
    (harr : (SendRpc lib w ctx rpcFunc sched).arrived = pre ++ r :: post)
    (hpre : ∀ x ∈ pre, x.Err ≠ none) (hr : r.Err = none) :
    ((SendRpc lib w ctx rpcFunc sched).ret = none ∨
      (SendRpc lib w ctx rpcFunc sched).ret = some r) ∧
    (∀ n, (SendRpc lib w ctx rpcFunc sched).arrived.length ≤ n →
      (SendRpc lib w ctx rpcFunc (sched ++ List.replicate n Tid.main)).ret = some r) ∧
    ((SendRpc lib w ctx rpcFunc sched).ret = some r →
      (SendRpc lib w ctx rpcFunc sched).results = post) := by
  have hle := (sendRpc_drain lib w ctx rpcFunc sched).2.2
  have hlen : pre.length < ctx.addrs.length := by
    rw [harr] at hle
    simp only [List.length_append, List.length_cons] at hle
    omega
  have hpos : 0 < ctx.addrs.length := by omega
  have hd : drain ctx.addrs.length (mainInit ctx.addrs.length)
      (SendRpc lib w ctx rpcFunc sched).arrived = .returned r := by
    rw [harr, mainInit_pos hpos]
    exact drain_success _ pre post r hpre hr hlen
  obtain ⟨h1, h2⟩ := ret_cases_of_drain lib w ctx rpcFunc sched r hd
  refine ⟨h1, h2, ?_⟩
  intro hret
  obtain ⟨added, h⟩ := sendRpc_inv lib w ctx rpcFunc sched
  obtain ⟨consumed, hc1, hc2, hc3⟩ := h.chan
  rw [h.size, mainInit_pos hpos] at hc2 hc3
  have hmain : (SendRpc lib w ctx rpcFunc sched).main = .returned r := by
    simp only [Config.ret] at hret
    cases hm : (SendRpc lib w ctx rpcFunc sched).main with
    | returned x => simp [hm] at hret; rw [hret]
    | draining c e => simp [hm] at hret
  have hfail : ∀ l : List RpcResult, (∀ x ∈ l, x.Err ≠ none) → l.length ≤ pre.length →
      consumed ≠ l := by
    intro l hl hll hcl
    rw [hcl, drain_failures _ l hl (by omega), hmain] at hc2
    cases hc2
  rw [harr] at hc1
  rcases List.append_eq_append_iff.1 hc1.symm with ⟨a', ha1, ha2⟩ | ⟨c', hc1', hc2'⟩
  · exact absurd rfl (hfail consumed (fun x hx => hpre x (by rw [ha1]; simp [hx]))
      (by rw [ha1]; simp))
  · cases c' with
    | nil =>
      simp only [List.append_nil] at hc1'
      exact absurd hc1' (hfail pre hpre (Nat.le_refl _))
    | cons y c'' =>
      simp only [List.cons_append, List.cons.injEq] at hc2'
      obtain ⟨rfl, hpost⟩ := hc2'
      cases c'' with
      | nil => simpa using hpost.symm
      | cons z zs =>
        exfalso
        obtain ⟨c, e, hce⟩ := hc3 (pre.length + 1) (by rw [hc1']; simp)
        have htake : List.take (pre.length + 1) consumed = pre ++ [r] := by
          rw [hc1', List.take_append_eq_append_take]
          simp
        rw [htake] at hce
        have := drain_success ctx.addrs.length pre [] r hpre hr hlen
        rw [this] at hce
        cases hce

/-- Witness of C3: the second replica has failed, the first has not
reported, the third has succeeded; its result is returned. -/
theorem first_success_wins_witness :
    (SendRpc libReplicas world0 ctxReplicas rpcThird
        (schedThirdWins ++ List.replicate 2 Tid.main)).ret =
      some { Addr := "10.0.0.3:6666", Err := none, Result := some "{volumeCount: 12}" } :=
  (first_success_wins libReplicas world0 ctxReplicas rpcThird schedThirdWins
    [{ Addr := "10.0.0.2:6666", Err := some "unavailable", Result := none }] []
    { Addr := "10.0.0.3:6666", Err := none, Result := some "{volumeCount: 12}" }
    (by rfl) (by simp) rfl).2.1 2 (by decide)

/-- C2: when the attempt for the address at position `i` has reported a result
`r` without error and every other attempt that has reported has failed (the
rest may still be on their way), `SendRpc` returns `r`: nothing else is
returned under any schedule, and `r` is returned once the caller has been
scheduled as often as results have arrived. `r` carries the address at
position `i` and the value that `Stub_Func` returned to that attempt. -/
theorem single_success_returned (lib : PoolLib) (w : World) (ctx : RpcContext)
    (rpcFunc : Rpc) (sched : List Tid) (i : Nat) (a : String) (acq : Except String Conn)
    (r : RpcResult)
    (hi : (SendRpc lib w ctx rpcFunc sched).gos[i]? = some (a, GoPc.done acq r))
    (hr : r.Err = none)
    (hothers : ∀ (j : Nat) (b : String) (acq' : Except String Conn) (x : RpcResult), j ≠ i →
      (SendRpc lib w ctx rpcFunc sched).gos[j]? = some (b, GoPc.done acq' x) →
      x.Err ≠ none) :
    ctx.addrs[i]? = some a ∧ r.Addr = a ∧
    (∃ c, acq = .ok c ∧
      Event.stubFunc i a w.cli.timeout w.cli.retryTimes r.Result none ∈
        (SendRpc lib w ctx rpcFunc sched).world.log.drop w.log.length) ∧
    ((SendRpc lib w ctx rpcFunc sched).ret = none ∨
      (SendRpc lib w ctx rpcFunc sched).ret = some r) ∧
    (∀ n, (SendRpc lib w ctx rpcFunc sched).arrived.length ≤ n →
      (SendRpc lib w ctx rpcFunc (sched ++ List.replicate n Tid.main)).ret = some r) := by
  obtain ⟨added, h⟩ := sendRpc_inv lib w ctx rpcFunc sched
  have hrep := h.gos i a _ hi
  have hmem := h.arrived_of_done hi
  obtain ⟨pre, y, post, harr, hpre, hy⟩ := first_success_split _ r hmem hr
  have hyr : y = r := by
    have hymem : y ∈ (SendRpc lib w ctx rpcFunc sched).arrived := by rw [harr]; simp
    obtain ⟨j, b, acq', hj⟩ := h.of_arrived hymem
    by_cases hji : j = i
    · subst hji
      rw [hi] at hj
      simp only [Option.some.injEq, Prod.mk.injEq, GoPc.done.injEq] at hj
      exact hj.2.2.symm
    · exact absurd hy (hothers j b acq' y hji hj)
  subst hyr
  have hle := (sendRpc_drain lib w ctx rpcFunc sched).2.2
  have hlen : pre.length < ctx.addrs.length := by
    rw [harr] at hle
    simp only [List.length_append, List.length_cons] at hle
    omega
  have hd : drain ctx.addrs.length (mainInit ctx.addrs.length)
      (SendRpc lib w ctx rpcFunc sched).arrived = .returned y := by
    rw [harr, mainInit_pos (by omega)]
    exact drain_success _ pre post y hpre hy hlen
  obtain ⟨h1, h2⟩ := ret_cases_of_drain lib w ctx rpcFunc sched y hd
  refine ⟨h.addr_at hi, ?_, ?_, h1, h2⟩
  · cases acq with
    | error e => exact hrep.1 ▸ rfl
    | ok c => exact hrep.1
  · cases acq with
    | error e =>
      have := hrep.1
      rw [this] at hr
      cases hr
    | ok c =>
      refine ⟨c, rfl, ?_⟩
      rw [h.log, List.drop_left, ← hr]
      exact hrep.2.2

/-- Witness of C2: of the three replicas only the third succeeds, with
`{volumeCount: 12}`; the first has failed and the second has not started. -/
theorem single_success_returned_witness :
    (SendRpc libReplicas world0 ctxReplicas rpcThird
        (schedSecondPending ++ List.replicate 2 Tid.main)).ret =
      some { Addr := "10.0.0.3:6666", Err := none, Result := some "{volumeCount: 12}" } :=
  (single_success_returned libReplicas world0 ctxReplicas rpcThird schedSecondPending 2
    "10.0.0.3:6666" (.ok 103)
    { Addr := "10.0.0.3:6666", Err := none, Result := some "{volumeCount: 12}" }
    (by rfl) rfl
    (by
      intro j b acq' x hj hx
      have hg : (SendRpc libReplicas world0 ctxReplicas rpcThird schedSecondPending).gos =
          [("10.0.0.1:6666", GoPc.done (.ok 101)
              { Addr := "10.0.0.1:6666", Err := some "unavailable", Result := none }),
            ("10.0.0.2:6666", GoPc.conn ConnPc.start),
            ("10.0.0.3:6666", GoPc.done (.ok 103)
              { Addr := "10.0.0.3:6666", Err := none,
                Result := some "{volumeCount: 12}" })] := by rfl
      rw [hg] at hx
      match j, hj, hx with
      | 0, _, hx =>
        simp only [List.getElem?_cons_zero, Option.some.injEq, Prod.mk.injEq,
          GoPc.done.injEq] at hx
        rw [← hx.2.2]
        simp
      | 1, _, hx => simp at hx
      | 2, hj, _ => exact absurd rfl hj
      | n + 3, _, hx => simp at hx)).2.2.2.2 2 (by decide)

/-- C9, as stated, fails in its last part: the failure of one address can
change the result reported for another. All attempts share the one adapter:
here the third attempt binds its connection, the first attempt runs, and then
the third attempt invokes the adapter. When the first attempt gets a
connection it binds the adapter to it and the third attempt reports
`unavailable`; when `pool.New` fails for the first address the adapter stays
bound to the third connection and the third attempt reports
`{volumeCount: 12}`. Schedule and adapter are the same in both runs. -/
theorem failure_changes_other_result :
    (SendRpc libReplicas world0 ctxReplicas rpcThird schedCrossTalk).arrived =
        [{ Addr := "10.0.0.3:6666", Err := some "unavailable", Result := none }] ∧
      (SendRpc libFirstDown world0 ctxReplicas rpcThird schedCrossTalk).arrived =
        [{ Addr := "10.0.0.1:6666"
           Err := some "new conn pool failed, addr: 10.0.0.1:6666, err: refused"
           Result := none },
         { Addr := "10.0.0.3:6666", Err := none, Result := some "{volumeCount: 12}" }] :=
  ⟨by rfl, by rfl⟩

/-- C9, amended: under every schedule the results that have arrived are
exactly the results of the goroutines that have ended, one each, and goroutine
`i` works on the address at position `i`. As soon as the history shows a
failed `pool.New` or `Get` of goroutine `i`, with `e` the wrapped error that
`getOrCreateConn` returns for it, goroutine `i` has called neither
`NewRpcClient` nor `Stub_Func` and it stands at the return of
`getOrCreateConn` with `e`, or is about to send, or has sent, exactly its
address, `e` and no result. A goroutine that has reported after a failed
acquisition has exactly that one failure in the history; a goroutine that has
reported after getting a connection has none, and it reports its address with
what its own `Stub_Func` call returned. When the goroutines are run one after
the other all of them end, whichever acquisitions fail, so as many results
arrive as there are addresses. -/
theorem every_attempt_reports_once (lib : PoolLib) (w : World) (ctx : RpcContext)
    (rpcFunc : Rpc) (sched : List Tid) (hl : w.cli.lock = none) :
    (SendRpc lib w ctx rpcFunc sched).arrived.Perm
      ((SendRpc lib w ctx rpcFunc sched).gos.filterMap (fun g => g.2.sent)) ∧
    (SendRpc lib w ctx rpcFunc sched).gos.map Prod.fst = ctx.addrs ∧
    (∀ (i : Nat) (e : String),
      e ∈ acqFailures i ((SendRpc lib w ctx rpcFunc sched).world.log.drop w.log.length) →
      NoAdapter ((SendRpc lib w ctx rpcFunc sched).world.log.drop w.log.length) i ∧
      ∃ a, ctx.addrs[i]? = some a ∧
        ((SendRpc lib w ctx rpcFunc sched).gos[i]? =
            some (a, GoPc.conn (ConnPc.ret (.error e))) ∨
          (SendRpc lib w ctx rpcFunc sched).gos[i]? =
            some (a, GoPc.send (.error e) { Addr := a, Err := some e, Result := none }) ∨
          (SendRpc lib w ctx rpcFunc sched).gos[i]? =
            some (a, GoPc.done (.error e) { Addr := a, Err := some e, Result := none }))) ∧
    (∀ (i : Nat) (a e : String) (r : RpcResult),
      (SendRpc lib w ctx rpcFunc sched).gos[i]? = some (a, GoPc.done (.error e) r) →
      r = { Addr := a, Err := some e, Result := none } ∧
      AcqErr ((SendRpc lib w ctx rpcFunc sched).world.log.drop w.log.length) i a e ∧
      NoAdapter ((SendRpc lib w ctx rpcFunc sched).world.log.drop w.log.length) i ∧
      acqFailures i ((SendRpc lib w ctx rpcFunc sched).world.log.drop w.log.length) =
        [e]) ∧
    (∀ (i : Nat) (a : String) (c : Conn) (r : RpcResult),
      (SendRpc lib w ctx rpcFunc sched).gos[i]? = some (a, GoPc.done (.ok c) r) →
      r.Addr = a ∧
      Event.newRpcClient i a c ∈
        (SendRpc lib w ctx rpcFunc sched).world.log.drop w.log.length ∧
      Event.stubFunc i a w.cli.timeout w.cli.retryTimes r.Result r.Err ∈
        (SendRpc lib w ctx rpcFunc sched).world.log.drop w.log.length ∧
      acqFailures i ((SendRpc lib w ctx rpcFunc sched).world.log.drop w.log.length) =
        []) ∧
    (∀ j : Nat, j < ctx.addrs.length → ∃ a acq r,
      (SendRpc lib w ctx rpcFunc (attemptsSched ctx.addrs.length)).gos[j]? =
        some (a, GoPc.done acq r)) ∧
    (SendRpc lib w ctx rpcFunc (attemptsSched ctx.addrs.length)).arrived.length =
      ctx.addrs.length := by
  obtain ⟨added, h⟩ := sendRpc_inv lib w ctx rpcFunc sched
  have hacq := sendRpc_acq lib w ctx rpcFunc sched
  have hdrop : (SendRpc lib w ctx rpcFunc sched).world.log.drop w.log.length = added := by
    rw [h.log, List.drop_left]
  rw [hdrop]
  have hacqs : ∀ (i : Nat) (a : String) (pc : GoPc),
      (SendRpc lib w ctx rpcFunc sched).gos[i]? = some (a, pc) →
      acqFailures i added = pc.acqError.toList := by
    intro i a pc hi
    rw [← hdrop]
    exact hacq.acq i a pc hi
  have htids : ∀ j : Nat, (SendRpc lib w ctx rpcFunc sched).gos.length ≤ j →
      acqFailures j added = [] := by
    intro j hj
    rw [← hdrop]
    exact hacq.tids j hj
  obtain ⟨_, g2, _, g4⟩ :=
    attemptsSched_done lib rpcFunc w ctx hl ctx.addrs.length (Nat.le_refl _)
  refine ⟨h.perm, h.addrs, ?_, ?_, ?_, g4, ?_⟩
  · intro i e he
    by_cases hlt : i < (SendRpc lib w ctx rpcFunc sched).gos.length
    · have hi : (SendRpc lib w ctx rpcFunc sched).gos[i]? =
          some ((SendRpc lib w ctx rpcFunc sched).gos[i]) := List.getElem?_eq_getElem hlt
      generalize (SendRpc lib w ctx rpcFunc sched).gos[i] = g at hi
      obtain ⟨a, pc⟩ := g
      have hA := hacqs i a pc hi
      have hG := h.gos i a pc hi
      rw [hA] at he
      refine ⟨?_, a, h.addr_at hi, ?_⟩
      · cases pc with
        | conn cpc => exact hG.1
        | bound c => simp [GoPc.acqError] at he
        | send acq r =>
          cases acq with
          | error e0 => exact hG.2.2
          | ok c => simp [GoPc.acqError] at he
        | done acq r =>
          cases acq with
          | error e0 => exact hG.2.2
          | ok c => simp [GoPc.acqError] at he
      · cases pc with
        | conn cpc =>
          cases cpc with
          | ret r =>
            cases r with
            | error e0 =>
              simp only [GoPc.acqError, Option.toList, List.mem_singleton] at he
              subst he
              exact .inl hi
            | ok c => simp [GoPc.acqError] at he
          | _ => simp [GoPc.acqError] at he
        | bound c => simp [GoPc.acqError] at he
        | send acq r =>
          cases acq with
          | error e0 =>
            simp only [GoPc.acqError, Option.toList, List.mem_singleton] at he
            subst he
            have := hG.1
            subst this
            exact .inr (.inl hi)
          | ok c => simp [GoPc.acqError] at he
        | done acq r =>
          cases acq with
          | error e0 =>
            simp only [GoPc.acqError, Option.toList, List.mem_singleton] at he
            subst he
            have := hG.1
            subst this
            exact .inr (.inr hi)
          | ok c => simp [GoPc.acqError] at he
    · rw [htids i (by omega)] at he
      simp at he
  · intro i a e r hi
    have hG := h.gos i a _ hi
    exact ⟨hG.1, hG.2.1, hG.2.2, by rw [hacqs i a _ hi]; rfl⟩
  · intro i a c r hi
    have hG := h.gos i a _ hi
    exact ⟨hG.1, hG.2.1, hG.2.2, by rw [hacqs i a _ hi]; rfl⟩
  · obtain ⟨added', h'⟩ := sendRpc_inv lib w ctx rpcFunc (attemptsSched ctx.addrs.length)
    rw [h'.perm.length_eq, filterMap_length_of_all, g2]
    intro g hg
    obtain ⟨j, hj⟩ := List.getElem?_of_mem hg
    have hjlt : j < ctx.addrs.length := by
      rw [← g2]; exact (List.getElem?_eq_some.1 hj).1
    obtain ⟨a, acq, r, hdone⟩ := g4 j hjlt
    rw [hj] at hdone
    simp only [Option.some.injEq] at hdone
    exact ⟨r, by rw [hdone]; rfl⟩

/-- Witness of C9: with the first replica down and the three attempts run to
their end, the first attempt has made no adapter call and has reported its
address, the wrapped error of `pool.New` and no result. -/
theorem every_attempt_reports_once_witness :
    NoAdapter
        ((SendRpc libFirstDown world0 ctxReplicas rpcThird (attemptsSched 3)).world.log.drop
          world0.log.length) 0 ∧
      ∃ a, ctxReplicas.addrs[0]? = some a ∧
        ((SendRpc libFirstDown world0 ctxReplicas rpcThird (attemptsSched 3)).gos[0]? =
            some (a, GoPc.conn (ConnPc.ret (.error (newFailed "10.0.0.1:6666" "refused")))) ∨
          (SendRpc libFirstDown world0 ctxReplicas rpcThird (attemptsSched 3)).gos[0]? =
            some (a, GoPc.send (.error (newFailed "10.0.0.1:6666" "refused"))
              { Addr := a, Err := some (newFailed "10.0.0.1:6666" "refused"),
                Result := none }) ∨
          (SendRpc libFirstDown world0 ctxReplicas rpcThird (attemptsSched 3)).gos[0]? =
            some (a, GoPc.done (.error (newFailed "10.0.0.1:6666" "refused"))
              { Addr := a, Err := some (newFailed "10.0.0.1:6666" "refused"),
                Result := none })) :=
  (every_attempt_reports_once libFirstDown world0 ctxReplicas rpcThird (attemptsSched 3)
    rfl).2.2.1 0 (newFailed "10.0.0.1:6666" "refused")
    (by
      have hf : acqFailures 0
          ((SendRpc libFirstDown world0 ctxReplicas rpcThird
            (attemptsSched 3)).world.log.drop world0.log.length) =
          [newFailed "10.0.0.1:6666" "refused"] := by
        set_option maxRecDepth 8000 in rfl
      rw [hf]
      exact List.mem_singleton.2 rfl)

/-- C4, as stated, fails: when `pool.New` fails for the single address
`10.0.0.1:6666`, the error text of the attempt names the address itself, so the
message of the aggregated error contains the address twice. -/
theorem all_failed_address_twice :
    (SendRpc libNewFails world0 ctxOne rpcDeadline (attemptsSched 1 ++ [Tid.main])).ret =
        some { Addr := ""
               Err := some
                 ";10.0.0.1:6666:new conn pool failed, addr: 10.0.0.1:6666, err: refused"
               Result := none } ∧
      occurrences "10.0.0.1:6666".data
        ";10.0.0.1:6666:new conn pool failed, addr: 10.0.0.1:6666, err: refused".data = 2 :=
  ⟨by rfl, by decide⟩

/-- C4, amended: when all `N ≥ 1` attempts have reported and failed, `SendRpc`
returns an outcome with `Addr ""`, no result and a non-nil error: nothing else
is returned under any schedule, and it is returned once the caller has been
scheduled `N` times. The addresses of the results are the addresses of the
context. When no address and no error text contains a percent sign, the
message is made of one entry `;address:errorText` per attempt: for the attempt
that arrived at position `k` the message is the entries of the earlier
attempts, then its entry, then the entries of the later attempts. -/
theorem all_failed_aggregates (lib : PoolLib) (w : World) (ctx : RpcContext)
    (rpcFunc : Rpc) (sched : List Tid) (hpos : 1 ≤ ctx.addrs.length)
    (hall : (SendRpc lib w ctx rpcFunc sched).arrived.length = ctx.addrs.length)
    (hfail : ∀ x ∈ (SendRpc lib w ctx rpcFunc sched).arrived, x.Err ≠ none) :
    ((SendRpc lib w ctx rpcFunc sched).ret = none ∨
      (SendRpc lib w ctx rpcFunc sched).ret =
        some { Addr := ""
               Err := some (Errorf (joinErrs (SendRpc lib w ctx rpcFunc sched).arrived))
               Result := none }) ∧
    (∀ n, ctx.addrs.length ≤ n →
      (SendRpc lib w ctx rpcFunc (sched ++ List.replicate n Tid.main)).ret =
        some { Addr := ""
               Err := some (Errorf (joinErrs (SendRpc lib w ctx rpcFunc sched).arrived))
               Result := none }) ∧
    ((SendRpc lib w ctx rpcFunc sched).arrived.map (fun x => x.Addr)).Perm ctx.addrs ∧
    ((∀ x ∈ (SendRpc lib w ctx rpcFunc sched).arrived,
        '%' ∉ x.Addr.data ∧ '%' ∉ (x.Err.getD "").data) →
      ∀ (k : Nat) (x : RpcResult), (SendRpc lib w ctx rpcFunc sched).arrived[k]? = some x →
        Errorf (joinErrs (SendRpc lib w ctx rpcFunc sched).arrived) =
          joinErrs ((SendRpc lib w ctx rpcFunc sched).arrived.take k) ++
            (";" ++ x.Addr ++ ":" ++ x.Err.getD "") ++
            joinErrs ((SendRpc lib w ctx rpcFunc sched).arrived.drop (k + 1))) := by
  obtain ⟨h1, h2⟩ := sendRpc_all_failed lib w ctx rpcFunc sched hpos hall hfail
  refine ⟨h1, h2, arrived_addrs lib w ctx rpcFunc sched hall, ?_⟩
  intro hpct k x hk
  rw [Errorf_plain _ (joinErrs_plain _ hpct)]
  exact joinErrs_split _ k x hk

/-- Witness of C4: both replicas fail to get a pool. -/
theorem all_failed_aggregates_witness :
    (SendRpc libNewFails world0 ctxTwo rpcDeadline
        (attemptsSched 2 ++ List.replicate 2 Tid.main)).ret =
      some { Addr := ""
             Err := some (Errorf (joinErrs
               (SendRpc libNewFails world0 ctxTwo rpcDeadline (attemptsSched 2)).arrived))
             Result := none } :=
  (all_failed_aggregates libNewFails world0 ctxTwo rpcDeadline (attemptsSched 2)
    (by decide) (by rfl) (by decide)).2.1 2 (by decide)

/-- C5, as stated, fails: for the single address `10.0.0.1:6666` failing with
`deadline-exceeded` the message starts with a semicolon. -/
theorem single_failure_message :
    (SendRpc libOk world0 ctxOne rpcDeadline (attemptsSched 1 ++ [Tid.main])).ret =
        some { Addr := "", Err := some ";10.0.0.1:6666:deadline-exceeded", Result := none } ∧
      ";10.0.0.1:6666:deadline-exceeded" ≠ "10.0.0.1:6666:deadline-exceeded" :=
  ⟨by rfl, by decide⟩

/-- C5, amended: when all `N ≥ 1` attempts have reported and failed and no
address and no error text contains a percent sign, the message of the error
that `SendRpc` returns is the concatenation, in arrival order, of the entries
`;address:errorMessage`, each with its leading semicolon; for the single
address `10.0.0.1:6666` failing with `deadline-exceeded` it is
`;10.0.0.1:6666:deadline-exceeded`. -/
theorem aggregated_message_in_arrival_order (lib : PoolLib) (w : World) (ctx : RpcContext)
    (rpcFunc : Rpc) (sched : List Tid) (hpos : 1 ≤ ctx.addrs.length)
    (hall : (SendRpc lib w ctx rpcFunc sched).arrived.length = ctx.addrs.length)
    (hfail : ∀ x ∈ (SendRpc lib w ctx rpcFunc sched).arrived, x.Err ≠ none)
    (hpct : ∀ x ∈ (SendRpc lib w ctx rpcFunc sched).arrived,
      '%' ∉ x.Addr.data ∧ '%' ∉ (x.Err.getD "").data) :
    ((SendRpc lib w ctx rpcFunc sched).ret = none ∨
      (SendRpc lib w ctx rpcFunc sched).ret =
        some { Addr := ""
               Err := some (String.join ((SendRpc lib w ctx rpcFunc sched).arrived.map
                 (fun x => ";" ++ x.Addr ++ ":" ++ x.Err.getD "")))
               Result := none }) ∧
    (∀ n, ctx.addrs.length ≤ n →
      (SendRpc lib w ctx rpcFunc (sched ++ List.replicate n Tid.main)).ret =
        some { Addr := ""
               Err := some (String.join ((SendRpc lib w ctx rpcFunc sched).arrived.map
                 (fun x => ";" ++ x.Addr ++ ":" ++ x.Err.getD "")))
               Result := none }) := by
  have h := sendRpc_all_failed lib w ctx rpcFunc sched hpos hall hfail
  simp only [failure, Errorf_plain _ (joinErrs_plain _ hpct)] at h
  exact h

/-- Witness of C5: the single address `10.0.0.1:6666` failing with
`deadline-exceeded`. -/
theorem aggregated_message_in_arrival_order_witness :
    (SendRpc libOk world0 ctxOne rpcDeadline
        (attemptsSched 1 ++ List.replicate 1 Tid.main)).ret =
      some { Addr := "", Err := some ";10.0.0.1:6666:deadline-exceeded", Result := none } :=
  (aggregated_message_in_arrival_order libOk world0 ctxOne rpcDeadline (attemptsSched 1)
    (by decide) (by rfl) (by decide) (by decide)).2 1 (by decide)

/-! ## Further facts about the dispatcher -/

/-- The joined error text is used as the format string of `fmt.Errorf`
(line 146): a percent sign in an error text is rewritten by the formatter. -/
theorem percent_sign_is_rewritten :
    (SendRpc libOk world0 ctxOne rpcQuota (attemptsSched 1 ++ [Tid.main])).ret =
      some { Addr := "", Err := some ";10.0.0.1:6666:quota at 100%!(NOVERB)",
             Result := none } := by
  rfl

/-- The defaults set by `init()`: 500 ms and three retries. -/
theorem init_defaults :
    init.timeout = 500 * 1000000 ∧ init.retryTimes = 3 ∧ init.lock = none ∧
      ∀ a, init.connPools a = none :=
  ⟨by decide, by decide, rfl, fun _ => rfl⟩

end Baserpc
